import Mathlib

/-!
Shallow embedding of the SmartPy NFT marketplace contract in
`src/project.py` (module `main`, class `NFTMarketplace`), together with
proofs of the specification claims about it.

Modelling conventions:
* `sp.address` is modelled as `String`; the sentinel burn address is the
  literal from the source.
* `sp.mutez` and `sp.nat` are modelled as `Nat`; `sp.timestamp` and
  `sp.int` (offer durations) as `Int`.
* Every `sp.big_map` / `sp.map` is an association list with the usual
  first-key-wins lookup; all maps built by the contract keep their keys
  distinct, because insertion replaces an existing binding in place.
* Each entrypoint becomes a function `State → Ctx → args → Except String
  State`, where `Ctx` carries the call context supplied by the host
  (`sp.sender`, `sp.amount`, `sp.now`) and `.error` is a failed assert
  with the source's message.  `withdraw` and `withdraw_fees` additionally
  return the amount passed to `sp.send`; the state they return is the
  state in effect at the moment the send is issued (nothing is mutated
  afterwards).
* Mutez subtraction aborts on underflow (Michelson semantics), modelled
  by `subMutez`.
-/

/-- Addresses are opaque strings (Tezos `tz...`/`KT...` literals). -/
abbrev Addr := String

/-- The sentinel burn address hard-coded in `transfer` (src/project.py line 470). -/
def burnAddress : Addr := "tz1Ke2h7sDdakHJQh8WX4Z372du1KChsksyU"

/-- `token_type` from the source: one NFT record. -/
structure Token where
  metadata : String
  author : Addr
  owner : Addr
  price : Nat
  for_sale : Bool
  royalty_percent : Nat
  created_at : Int
deriving Repr, DecidableEq

/-- `offer_type` from the source: a funded, time-bounded bid. -/
structure Offer where
  amount : Nat
  expires_at : Int
deriving Repr, DecidableEq

/-- Association-list lookup: first binding of the key, if any. -/
def lookupA {α β : Type} [DecidableEq α] (k : α) : List (α × β) → Option β
  | [] => none
  | (k', v) :: rest => if k' = k then some v else lookupA k rest

/-- Association-list upsert: replace the first binding in place, else append. -/
def insertA {α β : Type} [DecidableEq α] (k : α) (v : β) : List (α × β) → List (α × β)
  | [] => [(k, v)]
  | (k', v') :: rest => if k' = k then (k, v) :: rest else (k', v') :: insertA k v rest

/-- Association-list deletion of the first binding of the key. -/
def eraseA {α β : Type} [DecidableEq α] (k : α) : List (α × β) → List (α × β)
  | [] => []
  | (k', v') :: rest => if k' = k then rest else (k', v') :: eraseA k rest

/-- The whole contract storage (`self.data` in the source). -/
structure State where
  tokens : List (Nat × Token)
  next_id : Nat
  offers : List (Nat × List (Addr × Offer))
  pending_payments : List (Addr × Nat)
  collected_fees : Nat
  admin : Addr
  pending_admin : Option Addr
  platform_fee_percent : Nat
  mint_price : Nat
  min_sale_price : Nat
  max_metadata_length : Nat
  max_supply : Nat
  paused : Bool
deriving Repr, DecidableEq

/-- Call context supplied by the host runtime for one entrypoint call. -/
structure Ctx where
  sender : Addr
  amount : Nat
  now : Int
deriving Repr, DecidableEq

/-- The contract constructor `__init__` (the two constructor asserts,
`platform_fee_percent ≤ 20` and `max_metadata_length ≥ 10`, are carried
as side conditions of `Reachable` below). -/
def initState (admin : Addr) (platform_fee_percent mint_price min_sale_price
    max_metadata_length max_supply : Nat) : State :=
  { tokens := []
    next_id := 0
    offers := []
    pending_payments := []
    collected_fees := 0
    admin := admin
    pending_admin := none
    platform_fee_percent := platform_fee_percent
    mint_price := mint_price
    min_sale_price := min_sale_price
    max_metadata_length := max_metadata_length
    max_supply := max_supply
    paused := false }

/-- `sp.split_tokens m q total = floor (m * q / total)`. -/
def splitTokens (m q total : Nat) : Nat := m * q / total

/-- Mutez subtraction: fails (aborting the call) on underflow. -/
def subMutez (a b : Nat) : Except String Nat :=
  if b ≤ a then .ok (a - b) else .error "MUTEZ: subtraction underflow"

/-- The private helper `_add_pending`: credit `amount` to `recipient`'s
pending balance, skipping zero amounts. -/
def addPending (st : State) (recipient : Addr) (amount : Nat) : State :=
  if 0 < amount then
    match lookupA recipient st.pending_payments with
    | some v =>
        { st with pending_payments := insertA recipient (v + amount) st.pending_payments }
    | none =>
        { st with pending_payments := insertA recipient amount st.pending_payments }
  else st

/-- Pending balance of an address (0 when absent), as the view `get_pending`. -/
def pendingOf (st : State) (a : Addr) : Nat :=
  (lookupA a st.pending_payments).getD 0

/-- Entrypoint `mint` (src/project.py lines 140-188). -/
def mint (st : State) (ctx : Ctx) (metadata : String) (royalty_percent : Nat) :
    Except String State :=
  if st.paused then .error "MINT: Contract paused" else
  if ctx.amount ≠ st.mint_price then .error "MINT: Invalid amount" else
  if metadata.length = 0 then .error "MINT: Empty metadata" else
  if st.max_metadata_length < metadata.length then .error "MINT: Metadata too long" else
  if 50 < royalty_percent then .error "MINT: Royalty too high" else
  if 0 < st.max_supply ∧ st.max_supply ≤ st.next_id then .error "MINT: Max supply reached" else
  .ok { st with
    tokens := insertA st.next_id
      { metadata := metadata, author := ctx.sender, owner := ctx.sender,
        price := 0, for_sale := false, royalty_percent := royalty_percent,
        created_at := ctx.now } st.tokens,
    next_id := st.next_id + 1,
    collected_fees := st.collected_fees + ctx.amount }

/-- Entrypoint `list_for_sale` (src/project.py lines 194-227). -/
def list_for_sale (st : State) (ctx : Ctx) (token_id price : Nat) :
    Except String State :=
  if st.paused then .error "LIST: Contract paused" else
  if ctx.amount ≠ 0 then .error "LIST: No tez expected" else
  match lookupA token_id st.tokens with
  | none => .error "LIST: Token not found"
  | some token =>
    if price < st.min_sale_price then .error "LIST: Price below minimum" else
    if token.owner ≠ ctx.sender then .error "LIST: Not owner" else
    if token.for_sale then .error "LIST: Already listed" else
    .ok { st with
      tokens := insertA token_id { token with price := price, for_sale := true } st.tokens }

/-- Entrypoint `update_price` (src/project.py lines 229-249). -/
def update_price (st : State) (ctx : Ctx) (token_id new_price : Nat) :
    Except String State :=
  if st.paused then .error "UPDATE: Contract paused" else
  if ctx.amount ≠ 0 then .error "UPDATE: No tez expected" else
  match lookupA token_id st.tokens with
  | none => .error "UPDATE: Token not found"
  | some token =>
    if new_price < st.min_sale_price then .error "UPDATE: Price below minimum" else
    if token.owner ≠ ctx.sender then .error "UPDATE: Not owner" else
    if ¬token.for_sale then .error "UPDATE: Not listed" else
    .ok { st with
      tokens := insertA token_id { token with price := new_price } st.tokens }

/-- Entrypoint `cancel_sale` (src/project.py lines 251-265); note: no pause gate. -/
def cancel_sale (st : State) (ctx : Ctx) (token_id : Nat) : Except String State :=
  if ctx.amount ≠ 0 then .error "CANCEL: No tez expected" else
  match lookupA token_id st.tokens with
  | none => .error "CANCEL: Token not found"
  | some token =>
    if token.owner ≠ ctx.sender then .error "CANCEL: Not owner" else
    if ¬token.for_sale then .error "CANCEL: Not listed" else
    .ok { st with
      tokens := insertA token_id { token with for_sale := false, price := 0 } st.tokens }

/-- Entrypoint `buy` (src/project.py lines 271-324). -/
def buy (st : State) (ctx : Ctx) (token_id : Nat) : Except String State :=
  if st.paused then .error "BUY: Contract paused" else
  match lookupA token_id st.tokens with
  | none => .error "BUY: Token not found"
  | some token =>
    if ¬token.for_sale then .error "BUY: Not for sale" else
    if ctx.sender = token.owner then .error "BUY: Cannot buy own token" else
    if ctx.amount ≠ token.price then .error "BUY: Wrong amount" else
    let royalty := splitTokens token.price token.royalty_percent 100
    let fee := splitTokens token.price st.platform_fee_percent 100
    match subMutez token.price royalty with
    | .error e => .error e
    | .ok rest1 =>
      match subMutez rest1 fee with
      | .error e => .error e
      | .ok seller_amount =>
        let author_addr := token.author
        let seller_addr := token.owner
        let st1 := { st with
          tokens := insertA token_id
            { token with owner := ctx.sender, for_sale := false, price := 0 } st.tokens }
        let st2 := { st1 with collected_fees := st1.collected_fees + fee }
        if author_addr ≠ seller_addr then
          .ok (addPending (addPending st2 author_addr royalty) seller_addr seller_amount)
        else
          .ok (addPending st2 seller_addr (seller_amount + royalty))

/-- Entrypoint `make_offer` (src/project.py lines 330-374). -/
def make_offer (st : State) (ctx : Ctx) (token_id : Nat) (duration_seconds : Int) :
    Except String State :=
  if st.paused then .error "OFFER: Contract paused" else
  match lookupA token_id st.tokens with
  | none => .error "OFFER: Token not found"
  | some token =>
    if duration_seconds ≤ 0 then .error "OFFER: Invalid duration" else
    if ctx.amount < st.min_sale_price then .error "OFFER: Amount too low" else
    if ctx.sender = token.owner then .error "OFFER: Cannot offer on own token" else
    let new_offer : Offer := { amount := ctx.amount, expires_at := ctx.now + duration_seconds }
    match lookupA token_id st.offers with
    | some token_offers =>
      let st1 :=
        match lookupA ctx.sender token_offers with
        | some old_offer => addPending st ctx.sender old_offer.amount
        | none => st
      .ok { st1 with
        offers := insertA token_id (insertA ctx.sender new_offer token_offers) st1.offers }
    | none =>
      .ok { st with offers := insertA token_id [(ctx.sender, new_offer)] st.offers }

/-- Entrypoint `cancel_offer` (src/project.py lines 376-395). -/
def cancel_offer (st : State) (ctx : Ctx) (token_id : Nat) : Except String State :=
  if ctx.amount ≠ 0 then .error "CANCEL_OFFER: No tez expected" else
  match lookupA token_id st.offers with
  | none => .error "CANCEL_OFFER: No offers on token"
  | some token_offers =>
    match lookupA ctx.sender token_offers with
    | none => .error "CANCEL_OFFER: No offer from you"
    | some offer =>
      let st1 := { st with offers := insertA token_id (eraseA ctx.sender token_offers) st.offers }
      .ok (addPending st1 ctx.sender offer.amount)

/-- Entrypoint `accept_offer` (src/project.py lines 397-451). -/
def accept_offer (st : State) (ctx : Ctx) (token_id : Nat) (buyer : Addr) :
    Except String State :=
  if st.paused then .error "ACCEPT: Contract paused" else
  if ctx.amount ≠ 0 then .error "ACCEPT: No tez expected" else
  match lookupA token_id st.tokens with
  | none => .error "ACCEPT: Token not found"
  | some token =>
    match lookupA token_id st.offers with
    | none => .error "ACCEPT: No offers"
    | some token_offers =>
      if token.owner ≠ ctx.sender then .error "ACCEPT: Not owner" else
      match lookupA buyer token_offers with
      | none => .error "ACCEPT: Offer not found"
      | some offer =>
        if offer.expires_at ≤ ctx.now then .error "ACCEPT: Offer expired" else
        let royalty := splitTokens offer.amount token.royalty_percent 100
        let fee := splitTokens offer.amount st.platform_fee_percent 100
        match subMutez offer.amount royalty with
        | .error e => .error e
        | .ok rest1 =>
          match subMutez rest1 fee with
          | .error e => .error e
          | .ok seller_amount =>
            let author_addr := token.author
            let seller_addr := token.owner
            let st1 := { st with
              tokens := insertA token_id
                { token with owner := buyer, for_sale := false, price := 0 } st.tokens }
            let st2 := { st1 with
              offers := insertA token_id (eraseA buyer token_offers) st1.offers }
            let st3 := { st2 with collected_fees := st2.collected_fees + fee }
            if author_addr ≠ seller_addr then
              .ok (addPending (addPending st3 author_addr royalty) seller_addr seller_amount)
            else
              .ok (addPending st3 seller_addr (seller_amount + royalty))

/-- Entrypoint `transfer` (src/project.py lines 457-485). -/
def transfer (st : State) (ctx : Ctx) (token_id : Nat) (to_ : Addr) :
    Except String State :=
  if st.paused then .error "TRANSFER: Contract paused" else
  if ctx.amount ≠ 0 then .error "TRANSFER: No tez expected" else
  match lookupA token_id st.tokens with
  | none => .error "TRANSFER: Token not found"
  | some token =>
    if to_ = burnAddress then .error "TRANSFER: Cannot send to burn address" else
    if to_ = ctx.sender then .error "TRANSFER: Cannot transfer to self" else
    if token.owner ≠ ctx.sender then .error "TRANSFER: Not owner" else
    if token.for_sale then .error "TRANSFER: Token is listed" else
    .ok { st with tokens := insertA token_id { token with owner := to_ } st.tokens }

/-- Entrypoint `burn` (src/project.py lines 487-515); note: no pause gate. -/
def burn (st : State) (ctx : Ctx) (token_id : Nat) : Except String State :=
  if ctx.amount ≠ 0 then .error "BURN: No tez expected" else
  match lookupA token_id st.tokens with
  | none => .error "BURN: Token not found"
  | some token =>
    if token.owner ≠ ctx.sender then .error "BURN: Not owner" else
    if token.for_sale then .error "BURN: Token is listed" else
    let st1 := { st with tokens := eraseA token_id st.tokens }
    match lookupA token_id st1.offers with
    | some token_offers =>
      let st2 := token_offers.foldl (fun s p => addPending s p.1 p.2.amount) st1
      .ok { st2 with offers := eraseA token_id st2.offers }
    | none => .ok st1

/-- Entrypoint `withdraw` (src/project.py lines 521-537).  On success the
returned state is the one in effect when `sp.send sender amount` is
issued (the ledger entry is deleted first; nothing changes afterwards),
and the returned `Nat` is the amount sent. -/
def withdraw (st : State) (ctx : Ctx) : Except String (State × Nat) :=
  if ctx.amount ≠ 0 then .error "WITHDRAW: No tez expected" else
  match lookupA ctx.sender st.pending_payments with
  | none => .error "WITHDRAW: Nothing pending"
  | some amount =>
    if amount = 0 then .error "WITHDRAW: Zero amount" else
    .ok ({ st with pending_payments := eraseA ctx.sender st.pending_payments }, amount)

/-- Entrypoint `withdraw_fees` (src/project.py lines 539-553); same
convention as `withdraw` for the send. -/
def withdraw_fees (st : State) (ctx : Ctx) : Except String (State × Nat) :=
  if ctx.amount ≠ 0 then .error "FEES: No tez expected" else
  if ctx.sender ≠ st.admin then .error "FEES: Not admin" else
  if st.collected_fees = 0 then .error "FEES: Nothing to withdraw" else
  .ok ({ st with collected_fees := 0 }, st.collected_fees)

/-- Entrypoint `set_pause` (src/project.py lines 559-565). -/
def set_pause (st : State) (ctx : Ctx) (p : Bool) : Except String State :=
  if ctx.amount ≠ 0 then .error "PAUSE: No tez expected" else
  if ctx.sender ≠ st.admin then .error "PAUSE: Not admin" else
  .ok { st with paused := p }

/-- Entrypoint `propose_admin` (src/project.py lines 567-574). -/
def propose_admin (st : State) (ctx : Ctx) (new_admin : Addr) : Except String State :=
  if ctx.amount ≠ 0 then .error "ADMIN: No tez expected" else
  if ctx.sender ≠ st.admin then .error "ADMIN: Not admin" else
  if new_admin = st.admin then .error "ADMIN: Same admin" else
  .ok { st with pending_admin := some new_admin }

/-- Entrypoint `accept_admin` (src/project.py lines 576-590). -/
def accept_admin (st : State) (ctx : Ctx) : Except String State :=
  if ctx.amount ≠ 0 then .error "ADMIN: No tez expected" else
  match st.pending_admin with
  | none => .error "ADMIN: No pending"
  | some pending =>
    if ctx.sender ≠ pending then .error "ADMIN: Not proposed admin" else
    .ok { st with admin := pending, pending_admin := none }

/-- Entrypoint `cancel_admin_change` (src/project.py lines 592-598). -/
def cancel_admin_change (st : State) (ctx : Ctx) : Except String State :=
  if ctx.amount ≠ 0 then .error "ADMIN: No tez expected" else
  if ctx.sender ≠ st.admin then .error "ADMIN: Not admin" else
  .ok { st with pending_admin := none }

/-- Entrypoint `update_platform_fee` (src/project.py lines 600-607). -/
def update_platform_fee (st : State) (ctx : Ctx) (new_fee : Nat) : Except String State :=
  if ctx.amount ≠ 0 then .error "FEE: No tez expected" else
  if ctx.sender ≠ st.admin then .error "FEE: Not admin" else
  if 20 < new_fee then .error "FEE: Too high" else
  .ok { st with platform_fee_percent := new_fee }

/-- Entrypoint `update_mint_price` (src/project.py lines 609-615). -/
def update_mint_price (st : State) (ctx : Ctx) (new_price : Nat) : Except String State :=
  if ctx.amount ≠ 0 then .error "PRICE: No tez expected" else
  if ctx.sender ≠ st.admin then .error "PRICE: Not admin" else
  .ok { st with mint_price := new_price }

/-- Entrypoint `update_min_sale_price` (src/project.py lines 617-623). -/
def update_min_sale_price (st : State) (ctx : Ctx) (new_price : Nat) : Except String State :=
  if ctx.amount ≠ 0 then .error "PRICE: No tez expected" else
  if ctx.sender ≠ st.admin then .error "PRICE: Not admin" else
  .ok { st with min_sale_price := new_price }

/-! ### Association-list lemmas -/

theorem lookupA_insertA_self {α β : Type} [DecidableEq α] (k : α) (v : β)
    (l : List (α × β)) : lookupA k (insertA k v l) = some v := by
  induction l with
  | nil => simp [insertA, lookupA]
  | cons p rest ih =>
    obtain ⟨k', v'⟩ := p
    by_cases h : k' = k <;> simp [insertA, lookupA, h, ih]

theorem lookupA_insertA_ne {α β : Type} [DecidableEq α] {k k' : α} (v : β)
    (l : List (α × β)) (h : k' ≠ k) :
    lookupA k (insertA k' v l) = lookupA k l := by
  induction l with
  | nil => simp [insertA, lookupA, h]
  | cons p rest ih =>
    obtain ⟨k'', v'⟩ := p
    by_cases h2 : k'' = k' <;> by_cases h3 : k'' = k <;>
      simp_all [insertA, lookupA]

theorem lookupA_eraseA_ne {α β : Type} [DecidableEq α] {k k' : α}
    (l : List (α × β)) (h : k' ≠ k) :
    lookupA k (eraseA k' l) = lookupA k l := by
  induction l with
  | nil => simp [eraseA]
  | cons p rest ih =>
    obtain ⟨k'', v'⟩ := p
    by_cases h2 : k'' = k' <;> by_cases h3 : k'' = k <;>
      simp_all [eraseA, lookupA]

theorem lookupA_not_mem_keys {α β : Type} [DecidableEq α] {k : α}
    {l : List (α × β)} (h : k ∉ l.map Prod.fst) : lookupA k l = none := by
  induction l with
  | nil => rfl
  | cons p rest ih =>
    obtain ⟨k', v'⟩ := p
    simp only [List.map_cons, List.mem_cons] at h
    push_neg at h
    have hne : ¬(k' = k) := fun he => h.1 he.symm
    simp only [lookupA, if_neg hne]
    exact ih h.2

theorem lookupA_eraseA_self {α β : Type} [DecidableEq α] (k : α)
    (l : List (α × β)) (h : (l.map Prod.fst).Nodup) :
    lookupA k (eraseA k l) = none := by
  induction l with
  | nil => rfl
  | cons p rest ih =>
    obtain ⟨k', v'⟩ := p
    simp only [List.map_cons, List.nodup_cons] at h
    by_cases h2 : k' = k
    · subst h2
      simp only [eraseA, if_pos rfl]
      exact lookupA_not_mem_keys h.1
    · have he : eraseA k ((k', v') :: rest) = (k', v') :: eraseA k rest := by
        simp [eraseA, h2]
      rw [he]
      simp only [lookupA, if_neg h2]
      exact ih h.2

theorem mem_insertA {α β : Type} [DecidableEq α] {k : α} {v : β}
    {l : List (α × β)} {p : α × β} (h : p ∈ insertA k v l) :
    p = (k, v) ∨ p ∈ l := by
  induction l with
  | nil => simp only [insertA, List.mem_singleton] at h; exact Or.inl h
  | cons q rest ih =>
    obtain ⟨k', v'⟩ := q
    by_cases h2 : k' = k
    · simp only [insertA, if_pos h2, List.mem_cons] at h
      rcases h with h | h
      · exact Or.inl h
      · exact Or.inr (List.mem_cons_of_mem _ h)
    · simp only [insertA, if_neg h2, List.mem_cons] at h
      rcases h with h | h
      · exact Or.inr (List.mem_cons.mpr (Or.inl h))
      · rcases ih h with h3 | h3
        · exact Or.inl h3
        · exact Or.inr (List.mem_cons_of_mem _ h3)

theorem mem_eraseA {α β : Type} [DecidableEq α] {k : α}
    {l : List (α × β)} {p : α × β} (h : p ∈ eraseA k l) : p ∈ l := by
  induction l with
  | nil => simp only [eraseA] at h; exact absurd h (List.not_mem_nil p)
  | cons q rest ih =>
    obtain ⟨k', v'⟩ := q
    by_cases h2 : k' = k
    · simp only [eraseA, if_pos h2] at h
      exact List.mem_cons_of_mem _ h
    · simp only [eraseA, if_neg h2, List.mem_cons] at h
      rcases h with h | h
      · exact List.mem_cons.mpr (Or.inl h)
      · exact List.mem_cons_of_mem _ (ih h)

theorem lookupA_mem {α β : Type} [DecidableEq α] {k : α} {v : β}
    {l : List (α × β)} (h : lookupA k l = some v) : (k, v) ∈ l := by
  induction l with
  | nil => exact absurd h (by simp [lookupA])
  | cons q rest ih =>
    obtain ⟨k', v'⟩ := q
    simp only [lookupA] at h
    split at h
    · rename_i he
      cases h
      subst he
      exact List.mem_cons.mpr (Or.inl rfl)
    · exact List.mem_cons_of_mem _ (ih h)

theorem keys_insertA {α β : Type} [DecidableEq α] (k : α) (v : β)
    (l : List (α × β)) {x : α} (hx : x ∈ (insertA k v l).map Prod.fst) :
    x = k ∨ x ∈ l.map Prod.fst := by
  rcases List.mem_map.mp hx with ⟨q, hq, hfst⟩
  rcases mem_insertA hq with h | h
  · exact Or.inl (by rw [← hfst, h])
  · exact Or.inr (List.mem_map.mpr ⟨q, h, hfst⟩)

theorem nodup_insertA {α β : Type} [DecidableEq α] (k : α) (v : β)
    (l : List (α × β)) (h : (l.map Prod.fst).Nodup) :
    ((insertA k v l).map Prod.fst).Nodup := by
  induction l with
  | nil => simp [insertA]
  | cons q rest ih =>
    obtain ⟨k', v'⟩ := q
    simp only [List.map_cons, List.nodup_cons] at h
    by_cases h2 : k' = k
    · subst h2
      simpa [insertA] using h
    · simp only [insertA, if_neg h2, List.map_cons, List.nodup_cons]
      refine ⟨fun hm => ?_, ih h.2⟩
      rcases keys_insertA k v rest hm with h3 | h3
      · exact h2 h3
      · exact h.1 h3

theorem nodup_eraseA {α β : Type} [DecidableEq α] (k : α)
    (l : List (α × β)) (h : (l.map Prod.fst).Nodup) :
    ((eraseA k l).map Prod.fst).Nodup := by
  induction l with
  | nil => simp [eraseA]
  | cons q rest ih =>
    obtain ⟨k', v'⟩ := q
    simp only [List.map_cons, List.nodup_cons] at h
    by_cases h2 : k' = k
    · simpa [eraseA, h2] using h.2
    · simp only [eraseA, if_neg h2, List.map_cons, List.nodup_cons]
      refine ⟨fun hm => ?_, ih h.2⟩
      rcases List.mem_map.mp hm with ⟨q', hq', hfst⟩
      exact h.1 (List.mem_map.mpr ⟨q', mem_eraseA hq', hfst⟩)

/-! ### Pending-balance helper lemmas -/

theorem addPending_fields (st : State) (r : Addr) (a : Nat) :
    (addPending st r a).tokens = st.tokens ∧
    (addPending st r a).next_id = st.next_id ∧
    (addPending st r a).offers = st.offers ∧
    (addPending st r a).collected_fees = st.collected_fees ∧
    (addPending st r a).admin = st.admin ∧
    (addPending st r a).pending_admin = st.pending_admin ∧
    (addPending st r a).platform_fee_percent = st.platform_fee_percent ∧
    (addPending st r a).mint_price = st.mint_price ∧
    (addPending st r a).min_sale_price = st.min_sale_price ∧
    (addPending st r a).max_metadata_length = st.max_metadata_length ∧
    (addPending st r a).max_supply = st.max_supply ∧
    (addPending st r a).paused = st.paused := by
  unfold addPending
  split
  · cases lookupA r st.pending_payments <;> simp
  · simp

@[simp] theorem addPending_tokens (st : State) (r : Addr) (a : Nat) :
    (addPending st r a).tokens = st.tokens := (addPending_fields st r a).1

@[simp] theorem addPending_next_id (st : State) (r : Addr) (a : Nat) :
    (addPending st r a).next_id = st.next_id := (addPending_fields st r a).2.1

@[simp] theorem addPending_offers (st : State) (r : Addr) (a : Nat) :
    (addPending st r a).offers = st.offers := (addPending_fields st r a).2.2.1

@[simp] theorem addPending_collected_fees (st : State) (r : Addr) (a : Nat) :
    (addPending st r a).collected_fees = st.collected_fees :=
  (addPending_fields st r a).2.2.2.1

@[simp] theorem addPending_admin (st : State) (r : Addr) (a : Nat) :
    (addPending st r a).admin = st.admin := (addPending_fields st r a).2.2.2.2.1

@[simp] theorem addPending_pending_admin (st : State) (r : Addr) (a : Nat) :
    (addPending st r a).pending_admin = st.pending_admin :=
  (addPending_fields st r a).2.2.2.2.2.1

@[simp] theorem addPending_platform_fee_percent (st : State) (r : Addr) (a : Nat) :
    (addPending st r a).platform_fee_percent = st.platform_fee_percent :=
  (addPending_fields st r a).2.2.2.2.2.2.1

@[simp] theorem addPending_mint_price (st : State) (r : Addr) (a : Nat) :
    (addPending st r a).mint_price = st.mint_price :=
  (addPending_fields st r a).2.2.2.2.2.2.2.1

@[simp] theorem addPending_min_sale_price (st : State) (r : Addr) (a : Nat) :
    (addPending st r a).min_sale_price = st.min_sale_price :=
  (addPending_fields st r a).2.2.2.2.2.2.2.2.1

@[simp] theorem addPending_max_metadata_length (st : State) (r : Addr) (a : Nat) :
    (addPending st r a).max_metadata_length = st.max_metadata_length :=
  (addPending_fields st r a).2.2.2.2.2.2.2.2.2.1

@[simp] theorem addPending_max_supply (st : State) (r : Addr) (a : Nat) :
    (addPending st r a).max_supply = st.max_supply :=
  (addPending_fields st r a).2.2.2.2.2.2.2.2.2.2.1

@[simp] theorem addPending_paused (st : State) (r : Addr) (a : Nat) :
    (addPending st r a).paused = st.paused :=
  (addPending_fields st r a).2.2.2.2.2.2.2.2.2.2.2

theorem pendingOf_addPending (st : State) (r : Addr) (a : Nat) (x : Addr) :
    pendingOf (addPending st r a) x =
      if x = r then pendingOf st x + a else pendingOf st x := by
  unfold addPending pendingOf
  by_cases hx : x = r
  · subst hx
    split
    · cases hv : lookupA x st.pending_payments with
      | none => simp [hv, lookupA_insertA_self]
      | some v => simp [hv, lookupA_insertA_self]
    · rename_i hpos
      have ha : a = 0 := by omega
      simp [ha]
  · have hne : r ≠ x := fun he => hx he.symm
    split
    · cases hv : lookupA r st.pending_payments with
      | none => simp [hv, lookupA_insertA_ne _ _ hne, hx]
      | some v => simp [hv, lookupA_insertA_ne _ _ hne, hx]
    · simp [hx]

theorem pos_of_mem_addPending {st : State} {r : Addr} {a : Nat} {p : Addr × Nat}
    (hp : p ∈ (addPending st r a).pending_payments)
    (hinv : ∀ q ∈ st.pending_payments, 0 < q.2) : 0 < p.2 := by
  unfold addPending at hp
  split at hp
  · rename_i hpos
    cases hv : lookupA r st.pending_payments with
    | none =>
      rw [hv] at hp
      simp only at hp
      rcases mem_insertA hp with h | h
      · rw [h]; exact hpos
      · exact hinv _ h
    | some v =>
      rw [hv] at hp
      simp only at hp
      rcases mem_insertA hp with h | h
      · rw [h]; simpa using Or.inr hpos
      · exact hinv _ h
  · exact hinv _ hp

theorem nodup_addPending (st : State) (r : Addr) (a : Nat)
    (h : (st.pending_payments.map Prod.fst).Nodup) :
    ((addPending st r a).pending_payments.map Prod.fst).Nodup := by
  unfold addPending
  split
  · cases lookupA r st.pending_payments <;> simpa using nodup_insertA _ _ _ h
  · exact h

/-! ### Success characterizations of the entrypoints -/

theorem mint_ok {st : State} {ctx : Ctx} {md : String} {rp : Nat} {st' : State}
    (h : mint st ctx md rp = .ok st') :
    st.paused = false ∧ ctx.amount = st.mint_price ∧ 0 < md.length ∧
    md.length ≤ st.max_metadata_length ∧ rp ≤ 50 ∧
    (0 < st.max_supply → st.next_id < st.max_supply) ∧
    st' = { st with
      tokens := insertA st.next_id
        { metadata := md, author := ctx.sender, owner := ctx.sender,
          price := 0, for_sale := false, royalty_percent := rp,
          created_at := ctx.now } st.tokens,
      next_id := st.next_id + 1,
      collected_fees := st.collected_fees + ctx.amount } := by
  unfold mint at h
  split at h; · exact Except.noConfusion h
  split at h; · exact Except.noConfusion h
  split at h; · exact Except.noConfusion h
  split at h; · exact Except.noConfusion h
  split at h; · exact Except.noConfusion h
  split at h; · exact Except.noConfusion h
  cases h
  rename_i h1 h2 h3 h4 h5 h6
  refine ⟨by simpa using h1, by tauto, by omega, by omega, by omega, ?_, rfl⟩
  intro hpos
  by_contra hle
  exact h6 ⟨hpos, by omega⟩

theorem list_for_sale_ok {st : State} {ctx : Ctx} {token_id price : Nat} {st' : State}
    (h : list_for_sale st ctx token_id price = .ok st') :
    ∃ token, st.paused = false ∧ ctx.amount = 0 ∧
      lookupA token_id st.tokens = some token ∧
      st.min_sale_price ≤ price ∧ token.owner = ctx.sender ∧
      token.for_sale = false ∧
      st' = { st with
        tokens := insertA token_id
          { token with price := price, for_sale := true } st.tokens } := by
  unfold list_for_sale at h
  split at h; · exact Except.noConfusion h
  split at h; · exact Except.noConfusion h
  split at h
  · exact Except.noConfusion h
  · rename_i h1 h2 hopt token heq
    split at h; · exact Except.noConfusion h
    split at h; · exact Except.noConfusion h
    split at h; · exact Except.noConfusion h
    cases h
    rename_i h3 h4 h5
    exact ⟨token, by simpa using h1, by tauto, heq, by omega, by tauto, by simpa using h5, rfl⟩

theorem update_price_ok {st : State} {ctx : Ctx} {token_id new_price : Nat} {st' : State}
    (h : update_price st ctx token_id new_price = .ok st') :
    ∃ token, st.paused = false ∧ ctx.amount = 0 ∧
      lookupA token_id st.tokens = some token ∧
      st.min_sale_price ≤ new_price ∧ token.owner = ctx.sender ∧
      token.for_sale = true ∧
      st' = { st with
        tokens := insertA token_id { token with price := new_price } st.tokens } := by
  unfold update_price at h
  split at h; · exact Except.noConfusion h
  split at h; · exact Except.noConfusion h
  split at h
  · exact Except.noConfusion h
  · rename_i h1 h2 hopt token heq
    split at h; · exact Except.noConfusion h
    split at h; · exact Except.noConfusion h
    split at h; · exact Except.noConfusion h
    cases h
    rename_i h3 h4 h5
    exact ⟨token, by simpa using h1, by tauto, heq, by omega, by tauto, by simpa using h5, rfl⟩

theorem cancel_sale_ok {st : State} {ctx : Ctx} {token_id : Nat} {st' : State}
    (h : cancel_sale st ctx token_id = .ok st') :
    ∃ token, ctx.amount = 0 ∧ lookupA token_id st.tokens = some token ∧
      token.owner = ctx.sender ∧ token.for_sale = true ∧
      st' = { st with
        tokens := insertA token_id
          { token with for_sale := false, price := 0 } st.tokens } := by
  unfold cancel_sale at h
  split at h; · exact Except.noConfusion h
  split at h
  · exact Except.noConfusion h
  · rename_i h1 token heq
    split at h; · exact Except.noConfusion h
    split at h; · exact Except.noConfusion h
    cases h
    rename_i h2 h3
    exact ⟨token, by tauto, heq, by tauto, by simpa using h3, rfl⟩

theorem transfer_ok {st : State} {ctx : Ctx} {token_id : Nat} {to_ : Addr} {st' : State}
    (h : transfer st ctx token_id to_ = .ok st') :
    ∃ token, st.paused = false ∧ ctx.amount = 0 ∧
      lookupA token_id st.tokens = some token ∧
      to_ ≠ burnAddress ∧ to_ ≠ ctx.sender ∧ token.owner = ctx.sender ∧
      token.for_sale = false ∧
      st' = { st with tokens := insertA token_id { token with owner := to_ } st.tokens } := by
  unfold transfer at h
  split at h; · exact Except.noConfusion h
  split at h; · exact Except.noConfusion h
  split at h
  · exact Except.noConfusion h
  · rename_i h1 h2 hopt token heq
    split at h; · exact Except.noConfusion h
    split at h; · exact Except.noConfusion h
    split at h; · exact Except.noConfusion h
    split at h; · exact Except.noConfusion h
    cases h
    rename_i h3 h4 h5 h6
    exact ⟨token, by simpa using h1, by tauto, heq, h3, h4, by tauto, by simpa using h6, rfl⟩

theorem withdraw_ok {st : State} {ctx : Ctx} {st' : State} {amt : Nat}
    (h : withdraw st ctx = .ok (st', amt)) :
    ctx.amount = 0 ∧ lookupA ctx.sender st.pending_payments = some amt ∧ 0 < amt ∧
    st' = { st with pending_payments := eraseA ctx.sender st.pending_payments } := by
  unfold withdraw at h
  split at h; · exact Except.noConfusion h
  split at h
  · exact Except.noConfusion h
  · rename_i h1 amount heq
    split at h; · exact Except.noConfusion h
    rename_i h2
    cases h
    exact ⟨by tauto, heq, by omega, rfl⟩

theorem withdraw_fees_ok {st : State} {ctx : Ctx} {st' : State} {amt : Nat}
    (h : withdraw_fees st ctx = .ok (st', amt)) :
    ctx.amount = 0 ∧ ctx.sender = st.admin ∧ 0 < st.collected_fees ∧
    amt = st.collected_fees ∧ st' = { st with collected_fees := 0 } := by
  unfold withdraw_fees at h
  split at h; · exact Except.noConfusion h
  split at h; · exact Except.noConfusion h
  split at h; · exact Except.noConfusion h
  rename_i h1 h2 h3
  cases h
  exact ⟨by tauto, by tauto, by omega, rfl, rfl⟩

theorem set_pause_ok {st : State} {ctx : Ctx} {p : Bool} {st' : State}
    (h : set_pause st ctx p = .ok st') :
    ctx.amount = 0 ∧ ctx.sender = st.admin ∧ st' = { st with paused := p } := by
  unfold set_pause at h
  split at h; · exact Except.noConfusion h
  split at h; · exact Except.noConfusion h
  rename_i h1 h2
  cases h
  exact ⟨by tauto, by tauto, rfl⟩

theorem propose_admin_ok {st : State} {ctx : Ctx} {new_admin : Addr} {st' : State}
    (h : propose_admin st ctx new_admin = .ok st') :
    ctx.amount = 0 ∧ ctx.sender = st.admin ∧ new_admin ≠ st.admin ∧
    st' = { st with pending_admin := some new_admin } := by
  unfold propose_admin at h
  split at h; · exact Except.noConfusion h
  split at h; · exact Except.noConfusion h
  split at h; · exact Except.noConfusion h
  rename_i h1 h2 h3
  cases h
  exact ⟨by tauto, by tauto, h3, rfl⟩

theorem accept_admin_ok {st : State} {ctx : Ctx} {st' : State}
    (h : accept_admin st ctx = .ok st') :
    ctx.amount = 0 ∧ st.pending_admin = some ctx.sender ∧
    st' = { st with admin := ctx.sender, pending_admin := none } := by
  unfold accept_admin at h
  split at h; · exact Except.noConfusion h
  split at h
  · exact Except.noConfusion h
  · rename_i h1 pending heq
    split at h; · exact Except.noConfusion h
    rename_i h2
    cases h
    have hp : pending = ctx.sender := by tauto
    subst hp
    exact ⟨by tauto, heq, rfl⟩

theorem cancel_admin_change_ok {st : State} {ctx : Ctx} {st' : State}
    (h : cancel_admin_change st ctx = .ok st') :
    ctx.amount = 0 ∧ ctx.sender = st.admin ∧
    st' = { st with pending_admin := none } := by
  unfold cancel_admin_change at h
  split at h; · exact Except.noConfusion h
  split at h; · exact Except.noConfusion h
  rename_i h1 h2
  cases h
  exact ⟨by tauto, by tauto, rfl⟩

theorem update_platform_fee_ok {st : State} {ctx : Ctx} {new_fee : Nat} {st' : State}
    (h : update_platform_fee st ctx new_fee = .ok st') :
    ctx.amount = 0 ∧ ctx.sender = st.admin ∧ new_fee ≤ 20 ∧
    st' = { st with platform_fee_percent := new_fee } := by
  unfold update_platform_fee at h
  split at h; · exact Except.noConfusion h
  split at h; · exact Except.noConfusion h
  split at h; · exact Except.noConfusion h
  rename_i h1 h2 h3
  cases h
  exact ⟨by tauto, by tauto, by omega, rfl⟩

theorem update_mint_price_ok {st : State} {ctx : Ctx} {new_price : Nat} {st' : State}
    (h : update_mint_price st ctx new_price = .ok st') :
    ctx.amount = 0 ∧ ctx.sender = st.admin ∧
    st' = { st with mint_price := new_price } := by
  unfold update_mint_price at h
  split at h; · exact Except.noConfusion h
  split at h; · exact Except.noConfusion h
  rename_i h1 h2
  cases h
  exact ⟨by tauto, by tauto, rfl⟩

theorem update_min_sale_price_ok {st : State} {ctx : Ctx} {new_price : Nat} {st' : State}
    (h : update_min_sale_price st ctx new_price = .ok st') :
    ctx.amount = 0 ∧ ctx.sender = st.admin ∧
    st' = { st with min_sale_price := new_price } := by
  unfold update_min_sale_price at h
  split at h; · exact Except.noConfusion h
  split at h; · exact Except.noConfusion h
  rename_i h1 h2
  cases h
  exact ⟨by tauto, by tauto, rfl⟩

theorem subMutez_ok {a b c : Nat} (h : subMutez a b = .ok c) : b ≤ a ∧ c = a - b := by
  unfold subMutez at h
  split at h
  · cases h; rename_i hle; exact ⟨hle, rfl⟩
  · exact Except.noConfusion h

theorem buy_ok {st : State} {ctx : Ctx} {token_id : Nat} {st' : State}
    (h : buy st ctx token_id = .ok st') :
    ∃ token rest1 seller_amount stBase,
      st.paused = false ∧
      lookupA token_id st.tokens = some token ∧
      token.for_sale = true ∧
      ctx.sender ≠ token.owner ∧
      ctx.amount = token.price ∧
      subMutez token.price (splitTokens token.price token.royalty_percent 100) = .ok rest1 ∧
      subMutez rest1 (splitTokens token.price st.platform_fee_percent 100) = .ok seller_amount ∧
      seller_amount = token.price - splitTokens token.price token.royalty_percent 100
        - splitTokens token.price st.platform_fee_percent 100 ∧
      stBase = { st with
        tokens := insertA token_id
          { token with owner := ctx.sender, for_sale := false, price := 0 } st.tokens,
        collected_fees := st.collected_fees +
          splitTokens token.price st.platform_fee_percent 100 } ∧
      ((token.author ≠ token.owner ∧
          st' = addPending
            (addPending stBase token.author (splitTokens token.price token.royalty_percent 100))
            token.owner seller_amount) ∨
       (token.author = token.owner ∧
          st' = addPending stBase token.owner
            (seller_amount + splitTokens token.price token.royalty_percent 100))) := by
  unfold buy at h
  dsimp only at h
  split at h; · exact Except.noConfusion h
  split at h
  · exact Except.noConfusion h
  · rename_i hp hopt token heq
    split at h; · exact Except.noConfusion h
    split at h; · exact Except.noConfusion h
    split at h; · exact Except.noConfusion h
    split at h
    · exact Except.noConfusion h
    · rename_i h1 h2 h3 hopt2 rest1 heq1
      split at h
      · exact Except.noConfusion h
      · rename_i hopt3 seller_amount heq2
        obtain ⟨hle1, he1⟩ := subMutez_ok heq1
        obtain ⟨hle2, he2⟩ := subMutez_ok heq2
        split at h
        · cases h
          rename_i h4
          exact ⟨token, rest1, seller_amount, _,
            by simpa using hp, heq, by simpa using h1, h2, by tauto,
            heq1, heq2, by omega, rfl, Or.inl ⟨h4, rfl⟩⟩
        · cases h
          rename_i h4
          exact ⟨token, rest1, seller_amount, _,
            by simpa using hp, heq, by simpa using h1, h2, by tauto,
            heq1, heq2, by omega, rfl, Or.inr ⟨by tauto, rfl⟩⟩

theorem make_offer_ok {st : State} {ctx : Ctx} {token_id : Nat}
    {duration_seconds : Int} {st' : State}
    (h : make_offer st ctx token_id duration_seconds = .ok st') :
    ∃ token, st.paused = false ∧
      lookupA token_id st.tokens = some token ∧
      0 < duration_seconds ∧
      st.min_sale_price ≤ ctx.amount ∧
      ctx.sender ≠ token.owner ∧
      ((∃ token_offers, lookupA token_id st.offers = some token_offers ∧
        ((∃ old_offer, lookupA ctx.sender token_offers = some old_offer ∧
           st' = { addPending st ctx.sender old_offer.amount with
             offers := insertA token_id
               (insertA ctx.sender
                 { amount := ctx.amount, expires_at := ctx.now + duration_seconds }
                 token_offers)
               (addPending st ctx.sender old_offer.amount).offers }) ∨
         (lookupA ctx.sender token_offers = none ∧
           st' = { st with
             offers := insertA token_id
               (insertA ctx.sender
                 { amount := ctx.amount, expires_at := ctx.now + duration_seconds }
                 token_offers)
               st.offers }))) ∨
       (lookupA token_id st.offers = none ∧
         st' = { st with
           offers := insertA token_id
             [(ctx.sender, { amount := ctx.amount, expires_at := ctx.now + duration_seconds })]
             st.offers })) := by
  unfold make_offer at h
  dsimp only at h
  split at h; · exact Except.noConfusion h
  split at h
  · exact Except.noConfusion h
  · rename_i hp hopt token heq
    split at h; · exact Except.noConfusion h
    split at h; · exact Except.noConfusion h
    split at h; · exact Except.noConfusion h
    split at h
    · rename_i h1 h2 h3 hopt2 token_offers heq2
      split at h
      · rename_i old_offer heq3
        cases h
        exact ⟨token, by simpa using hp, heq, by omega, by omega, h3,
          Or.inl ⟨token_offers, heq2, Or.inl ⟨old_offer, heq3, rfl⟩⟩⟩
      · rename_i heq3
        cases h
        exact ⟨token, by simpa using hp, heq, by omega, by omega, h3,
          Or.inl ⟨token_offers, heq2, Or.inr ⟨heq3, rfl⟩⟩⟩
    · rename_i h1 h2 h3 hopt2 heq2
      cases h
      exact ⟨token, by simpa using hp, heq, by omega, by omega, h3,
        Or.inr ⟨heq2, rfl⟩⟩

theorem cancel_offer_ok {st : State} {ctx : Ctx} {token_id : Nat} {st' : State}
    (h : cancel_offer st ctx token_id = .ok st') :
    ∃ token_offers offer, ctx.amount = 0 ∧
      lookupA token_id st.offers = some token_offers ∧
      lookupA ctx.sender token_offers = some offer ∧
      st' = addPending
        { st with offers := insertA token_id (eraseA ctx.sender token_offers) st.offers }
        ctx.sender offer.amount := by
  unfold cancel_offer at h
  dsimp only at h
  split at h; · exact Except.noConfusion h
  split at h
  · exact Except.noConfusion h
  · rename_i h1 hopt token_offers heq
    split at h
    · exact Except.noConfusion h
    · rename_i hopt2 offer heq2
      cases h
      exact ⟨token_offers, offer, by tauto, heq, heq2, rfl⟩

theorem accept_offer_ok {st : State} {ctx : Ctx} {token_id : Nat} {buyer : Addr}
    {st' : State} (h : accept_offer st ctx token_id buyer = .ok st') :
    ∃ token token_offers offer rest1 seller_amount stBase,
      st.paused = false ∧ ctx.amount = 0 ∧
      lookupA token_id st.tokens = some token ∧
      lookupA token_id st.offers = some token_offers ∧
      token.owner = ctx.sender ∧
      lookupA buyer token_offers = some offer ∧
      ctx.now < offer.expires_at ∧
      subMutez offer.amount (splitTokens offer.amount token.royalty_percent 100) = .ok rest1 ∧
      subMutez rest1 (splitTokens offer.amount st.platform_fee_percent 100) = .ok seller_amount ∧
      seller_amount = offer.amount - splitTokens offer.amount token.royalty_percent 100
        - splitTokens offer.amount st.platform_fee_percent 100 ∧
      stBase = { st with
        tokens := insertA token_id
          { token with owner := buyer, for_sale := false, price := 0 } st.tokens,
        offers := insertA token_id (eraseA buyer token_offers) st.offers,
        collected_fees := st.collected_fees +
          splitTokens offer.amount st.platform_fee_percent 100 } ∧
      ((token.author ≠ token.owner ∧
          st' = addPending
            (addPending stBase token.author (splitTokens offer.amount token.royalty_percent 100))
            token.owner seller_amount) ∨
       (token.author = token.owner ∧
          st' = addPending stBase token.owner
            (seller_amount + splitTokens offer.amount token.royalty_percent 100))) := by
  unfold accept_offer at h
  dsimp only at h
  split at h; · exact Except.noConfusion h
  split at h; · exact Except.noConfusion h
  split at h
  · exact Except.noConfusion h
  · rename_i hp h0 hopt token heq
    split at h
    · exact Except.noConfusion h
    · rename_i hopt2 token_offers heq2
      split at h; · exact Except.noConfusion h
      split at h
      · exact Except.noConfusion h
      · rename_i h1 hopt3 offer heq3
        split at h; · exact Except.noConfusion h
        split at h
        · exact Except.noConfusion h
        · rename_i h2 hopt4 rest1 heq4
          split at h
          · exact Except.noConfusion h
          · rename_i hopt5 seller_amount heq5
            obtain ⟨hle1, he1⟩ := subMutez_ok heq4
            obtain ⟨hle2, he2⟩ := subMutez_ok heq5
            split at h
            · cases h
              rename_i h3
              exact ⟨token, token_offers, offer, rest1, seller_amount, _,
                by simpa using hp, by tauto, heq, heq2, by tauto, heq3, by omega,
                heq4, heq5, by omega, rfl, Or.inl ⟨h3, rfl⟩⟩
            · cases h
              rename_i h3
              exact ⟨token, token_offers, offer, rest1, seller_amount, _,
                by simpa using hp, by tauto, heq, heq2, by tauto, heq3, by omega,
                heq4, heq5, by omega, rfl, Or.inr ⟨by tauto, rfl⟩⟩

theorem burn_ok {st : State} {ctx : Ctx} {token_id : Nat} {st' : State}
    (h : burn st ctx token_id = .ok st') :
    ∃ token, ctx.amount = 0 ∧
      lookupA token_id st.tokens = some token ∧
      token.owner = ctx.sender ∧ token.for_sale = false ∧
      ((∃ token_offers st2, lookupA token_id st.offers = some token_offers ∧
        st2 = token_offers.foldl (fun s p => addPending s p.1 p.2.amount)
          { st with tokens := eraseA token_id st.tokens } ∧
        st' = { st2 with offers := eraseA token_id st2.offers }) ∨
       (lookupA token_id st.offers = none ∧
        st' = { st with tokens := eraseA token_id st.tokens })) := by
  unfold burn at h
  dsimp only at h
  split at h; · exact Except.noConfusion h
  split at h
  · exact Except.noConfusion h
  · rename_i h0 hopt token heq
    split at h; · exact Except.noConfusion h
    split at h; · exact Except.noConfusion h
    split at h
    · rename_i h1 h2 hopt2 token_offers heq2
      cases h
      exact ⟨token, by tauto, heq, by tauto, by simpa using h2,
        Or.inl ⟨token_offers, _, heq2, rfl, rfl⟩⟩
    · rename_i h1 h2 hopt2 heq2
      cases h
      exact ⟨token, by tauto, heq, by tauto, by simpa using h2,
        Or.inr ⟨heq2, rfl⟩⟩

/-! ### The transition system: one step per successful entrypoint call -/

/-- Labels naming which entrypoint a step executed. -/
inductive Op where
  | mintOp | listForSaleOp | updatePriceOp | cancelSaleOp | buyOp
  | makeOfferOp | cancelOfferOp | acceptOfferOp | transferOp | burnOp
  | withdrawOp | withdrawFeesOp | setPauseOp | proposeAdminOp
  | acceptAdminOp | cancelAdminChangeOp | updatePlatformFeeOp
  | updateMintPriceOp | updateMinSalePriceOp
deriving Repr, DecidableEq

/-- A successful call of one entrypoint, labelled by entrypoint and call context. -/
inductive StepL : Op → Ctx → State → State → Prop where
  | mintS {ctx st st'} (md : String) (rp : Nat) :
      mint st ctx md rp = .ok st' → StepL .mintOp ctx st st'
  | listForSaleS {ctx st st'} (token_id price : Nat) :
      list_for_sale st ctx token_id price = .ok st' → StepL .listForSaleOp ctx st st'
  | updatePriceS {ctx st st'} (token_id new_price : Nat) :
      update_price st ctx token_id new_price = .ok st' → StepL .updatePriceOp ctx st st'
  | cancelSaleS {ctx st st'} (token_id : Nat) :
      cancel_sale st ctx token_id = .ok st' → StepL .cancelSaleOp ctx st st'
  | buyS {ctx st st'} (token_id : Nat) :
      buy st ctx token_id = .ok st' → StepL .buyOp ctx st st'
  | makeOfferS {ctx st st'} (token_id : Nat) (duration_seconds : Int) :
      make_offer st ctx token_id duration_seconds = .ok st' → StepL .makeOfferOp ctx st st'
  | cancelOfferS {ctx st st'} (token_id : Nat) :
      cancel_offer st ctx token_id = .ok st' → StepL .cancelOfferOp ctx st st'
  | acceptOfferS {ctx st st'} (token_id : Nat) (buyer : Addr) :
      accept_offer st ctx token_id buyer = .ok st' → StepL .acceptOfferOp ctx st st'
  | transferS {ctx st st'} (token_id : Nat) (to_ : Addr) :
      transfer st ctx token_id to_ = .ok st' → StepL .transferOp ctx st st'
  | burnS {ctx st st'} (token_id : Nat) :
      burn st ctx token_id = .ok st' → StepL .burnOp ctx st st'
  | withdrawS {ctx st st'} (amt : Nat) :
      withdraw st ctx = .ok (st', amt) → StepL .withdrawOp ctx st st'
  | withdrawFeesS {ctx st st'} (amt : Nat) :
      withdraw_fees st ctx = .ok (st', amt) → StepL .withdrawFeesOp ctx st st'
  | setPauseS {ctx st st'} (p : Bool) :
      set_pause st ctx p = .ok st' → StepL .setPauseOp ctx st st'
  | proposeAdminS {ctx st st'} (new_admin : Addr) :
      propose_admin st ctx new_admin = .ok st' → StepL .proposeAdminOp ctx st st'
  | acceptAdminS {ctx st st'} :
      accept_admin st ctx = .ok st' → StepL .acceptAdminOp ctx st st'
  | cancelAdminChangeS {ctx st st'} :
      cancel_admin_change st ctx = .ok st' → StepL .cancelAdminChangeOp ctx st st'
  | updatePlatformFeeS {ctx st st'} (new_fee : Nat) :
      update_platform_fee st ctx new_fee = .ok st' → StepL .updatePlatformFeeOp ctx st st'
  | updateMintPriceS {ctx st st'} (new_price : Nat) :
      update_mint_price st ctx new_price = .ok st' → StepL .updateMintPriceOp ctx st st'
  | updateMinSalePriceS {ctx st st'} (new_price : Nat) :
      update_min_sale_price st ctx new_price = .ok st' → StepL .updateMinSalePriceOp ctx st st'

/-- One successful call of any entrypoint, by any caller. -/
def Step (s s' : State) : Prop := ∃ l ctx, StepL l ctx s s'

/-- States reachable from some freshly constructed contract by successful
calls (the two constructor asserts bound the initial configuration). -/
def Reachable (st : State) : Prop :=
  ∃ a fp mp msp mml ms, fp ≤ 20 ∧ 10 ≤ mml ∧
    Relation.ReflTransGen Step (initState a fp mp msp mml ms) st

/-- A step that does not raise the sale-price floor. -/
def StepNR (s s' : State) : Prop := Step s s' ∧ s'.min_sale_price ≤ s.min_sale_price

/-- Reachability by steps that never raise `min_sale_price`. -/
def ReachableNR (st : State) : Prop :=
  ∃ a fp mp msp mml ms, fp ≤ 20 ∧ 10 ≤ mml ∧
    Relation.ReflTransGen StepNR (initState a fp mp msp mml ms) st

/-- A step whose caller is not the sentinel burn address. -/
def StepNB (s s' : State) : Prop := ∃ l ctx, ctx.sender ≠ burnAddress ∧ StepL l ctx s s'

/-- Reachability by steps whose caller is never the sentinel burn address. -/
def ReachableNB (st : State) : Prop :=
  ∃ a fp mp msp mml ms, fp ≤ 20 ∧ 10 ≤ mml ∧
    Relation.ReflTransGen StepNB (initState a fp mp msp mml ms) st

/-! ### Lemmas about the offer-refund fold used by `burn` -/

theorem foldl_addPending_tokens (l : List (Addr × Offer)) (s : State) :
    (l.foldl (fun s q => addPending s q.1 q.2.amount) s).tokens = s.tokens := by
  induction l generalizing s with
  | nil => rfl
  | cons q rest ih => simp [List.foldl, ih]

theorem foldl_addPending_offers (l : List (Addr × Offer)) (s : State) :
    (l.foldl (fun s q => addPending s q.1 q.2.amount) s).offers = s.offers := by
  induction l generalizing s with
  | nil => rfl
  | cons q rest ih => simp [List.foldl, ih]

theorem foldl_addPending_min_sale_price (l : List (Addr × Offer)) (s : State) :
    (l.foldl (fun s q => addPending s q.1 q.2.amount) s).min_sale_price =
      s.min_sale_price := by
  induction l generalizing s with
  | nil => rfl
  | cons q rest ih => simp [List.foldl, ih]

theorem foldl_addPending_pos (l : List (Addr × Offer)) (s : State)
    (h : ∀ p ∈ s.pending_payments, 0 < p.2) :
    ∀ p ∈ (l.foldl (fun s q => addPending s q.1 q.2.amount) s).pending_payments,
      0 < p.2 := by
  induction l generalizing s with
  | nil => exact h
  | cons q rest ih =>
    simp only [List.foldl]
    exact ih _ (fun p hp => pos_of_mem_addPending hp h)

theorem pendingOf_foldl_not_mem (l : List (Addr × Offer)) (s : State) {b : Addr}
    (hb : b ∉ l.map Prod.fst) :
    pendingOf (l.foldl (fun s q => addPending s q.1 q.2.amount) s) b = pendingOf s b := by
  induction l generalizing s with
  | nil => rfl
  | cons q rest ih =>
    obtain ⟨b', o'⟩ := q
    simp only [List.map_cons, List.mem_cons] at hb
    push_neg at hb
    simp only [List.foldl]
    rw [ih _ hb.2, pendingOf_addPending]
    simp [hb.1]

theorem pendingOf_foldl_of_mem (l : List (Addr × Offer)) (s : State) {b : Addr}
    {o : Offer} (hmem : (b, o) ∈ l) (hnd : (l.map Prod.fst).Nodup) :
    pendingOf (l.foldl (fun s q => addPending s q.1 q.2.amount) s) b =
      pendingOf s b + o.amount := by
  induction l generalizing s with
  | nil => exact absurd hmem (List.not_mem_nil _)
  | cons q rest ih =>
    obtain ⟨b', o'⟩ := q
    simp only [List.map_cons, List.nodup_cons] at hnd
    rcases List.mem_cons.mp hmem with hq | hq
    · cases hq
      simp only [List.foldl]
      rw [pendingOf_foldl_not_mem _ _ hnd.1, pendingOf_addPending]
      simp
    · have hb : b ≠ b' := by
        intro he
        subst he
        exact hnd.1 (List.mem_map.mpr ⟨(b, o), hq, rfl⟩)
      simp only [List.foldl]
      rw [ih _ hq hnd.2, pendingOf_addPending]
      simp [hb]

/-! ### Invariant: every stored pending-payment entry is strictly positive -/

theorem pendingPos_step {l : Op} {ctx : Ctx} {s s' : State} (hs : StepL l ctx s s')
    (hInv : ∀ p ∈ s.pending_payments, 0 < p.2) :
    ∀ p ∈ s'.pending_payments, 0 < p.2 := by
  cases hs with
  | mintS md rp h =>
    obtain ⟨_, _, _, _, _, _, hst⟩ := mint_ok h
    subst hst; simpa using hInv
  | listForSaleS token_id price h =>
    obtain ⟨t, _, _, _, _, _, _, hst⟩ := list_for_sale_ok h
    subst hst; simpa using hInv
  | updatePriceS token_id np h =>
    obtain ⟨t, _, _, _, _, _, _, hst⟩ := update_price_ok h
    subst hst; simpa using hInv
  | cancelSaleS token_id h =>
    obtain ⟨t, _, _, _, _, hst⟩ := cancel_sale_ok h
    subst hst; simpa using hInv
  | buyS token_id h =>
    obtain ⟨t, r1, sa, stBase, _, _, _, _, _, _, _, _, hBase, hcase⟩ := buy_ok h
    have hBasePos : ∀ p ∈ stBase.pending_payments, 0 < p.2 := by
      subst hBase; simpa using hInv
    rcases hcase with ⟨_, hst⟩ | ⟨_, hst⟩ <;> subst hst
    · exact fun p hp => pos_of_mem_addPending hp
        (fun q hq => pos_of_mem_addPending hq hBasePos)
    · exact fun p hp => pos_of_mem_addPending hp hBasePos
  | makeOfferS token_id dur h =>
    obtain ⟨t, _, _, _, _, _, hcase⟩ := make_offer_ok h
    rcases hcase with ⟨toff, _, ⟨old, _, hst⟩ | ⟨_, hst⟩⟩ | ⟨_, hst⟩ <;> subst hst
    · exact fun p hp => pos_of_mem_addPending (by simpa using hp) hInv
    · simpa using hInv
    · simpa using hInv
  | cancelOfferS token_id h =>
    obtain ⟨toff, off, _, _, _, hst⟩ := cancel_offer_ok h
    subst hst
    exact fun p hp => pos_of_mem_addPending hp (by simpa using hInv)
  | acceptOfferS token_id buyer h =>
    obtain ⟨t, toff, off, r1, sa, stBase, _, _, _, _, _, _, _, _, _, _, hBase, hcase⟩ :=
      accept_offer_ok h
    have hBasePos : ∀ p ∈ stBase.pending_payments, 0 < p.2 := by
      subst hBase; simpa using hInv
    rcases hcase with ⟨_, hst⟩ | ⟨_, hst⟩ <;> subst hst
    · exact fun p hp => pos_of_mem_addPending hp
        (fun q hq => pos_of_mem_addPending hq hBasePos)
    · exact fun p hp => pos_of_mem_addPending hp hBasePos
  | transferS token_id to_ h =>
    obtain ⟨t, _, _, _, _, _, _, _, hst⟩ := transfer_ok h
    subst hst; simpa using hInv
  | burnS token_id h =>
    obtain ⟨t, _, _, _, _, hcase⟩ := burn_ok h
    rcases hcase with ⟨toff, st2, _, hst2, hst⟩ | ⟨_, hst⟩ <;> subst hst
    · subst hst2
      intro p hp
      refine foldl_addPending_pos _ _ ?_ p (by simpa using hp)
      simpa using hInv
    · simpa using hInv
  | withdrawS amt h =>
    obtain ⟨_, _, _, hst⟩ := withdraw_ok h
    subst hst
    intro p hp
    exact hInv p (mem_eraseA (by simpa using hp))
  | withdrawFeesS amt h =>
    obtain ⟨_, _, _, _, hst⟩ := withdraw_fees_ok h
    subst hst; simpa using hInv
  | setPauseS p h =>
    obtain ⟨_, _, hst⟩ := set_pause_ok h
    subst hst; simpa using hInv
  | proposeAdminS na h =>
    obtain ⟨_, _, _, hst⟩ := propose_admin_ok h
    subst hst; simpa using hInv
  | acceptAdminS h =>
    obtain ⟨_, _, hst⟩ := accept_admin_ok h
    subst hst; simpa using hInv
  | cancelAdminChangeS h =>
    obtain ⟨_, _, hst⟩ := cancel_admin_change_ok h
    subst hst; simpa using hInv
  | updatePlatformFeeS nf h =>
    obtain ⟨_, _, _, hst⟩ := update_platform_fee_ok h
    subst hst; simpa using hInv
  | updateMintPriceS np h =>
    obtain ⟨_, _, hst⟩ := update_mint_price_ok h
    subst hst; simpa using hInv
  | updateMinSalePriceS np h =>
    obtain ⟨_, _, hst⟩ := update_min_sale_price_ok h
    subst hst; simpa using hInv

theorem pendingPos_reachable {st : State} (h : Reachable st) :
    ∀ p ∈ st.pending_payments, 0 < p.2 := by
  obtain ⟨a, fp, mp, msp, mml, ms, hfp, hmml, hr⟩ := h
  induction hr with
  | refl => intro p hp; simp [initState] at hp
  | tail hsteps hstep ih =>
    obtain ⟨l, ctx, hs⟩ := hstep
    exact pendingPos_step hs ih

/-! ### Invariant: listed tokens meet the (non-raised) sale-price floor -/

/-- The spec's global invariant: every listed token's price is at least
the current configured floor. -/
def listedInv (st : State) : Prop :=
  ∀ p ∈ st.tokens, p.2.for_sale = true → st.min_sale_price ≤ p.2.price

theorem listedInv_step {l : Op} {ctx : Ctx} {s s' : State} (hs : StepL l ctx s s')
    (hmin : s'.min_sale_price ≤ s.min_sale_price) (hInv : listedInv s) :
    listedInv s' := by
  cases hs with
  | mintS md rp h =>
    obtain ⟨_, _, _, _, _, _, hst⟩ := mint_ok h
    subst hst
    intro p hp hf
    rcases mem_insertA (show p ∈ insertA _ _ s.tokens by simpa using hp) with hq | hq
    · rw [hq] at hf; simp at hf
    · simpa using hInv p hq hf
  | listForSaleS token_id price h =>
    obtain ⟨t, _, _, _, hminp, _, _, hst⟩ := list_for_sale_ok h
    subst hst
    intro p hp hf
    rcases mem_insertA (show p ∈ insertA _ _ s.tokens by simpa using hp) with hq | hq
    · rw [hq]; simpa using hminp
    · simpa using hInv p hq hf
  | updatePriceS token_id np h =>
    obtain ⟨t, _, _, _, hminp, _, _, hst⟩ := update_price_ok h
    subst hst
    intro p hp hf
    rcases mem_insertA (show p ∈ insertA _ _ s.tokens by simpa using hp) with hq | hq
    · rw [hq]; simpa using hminp
    · simpa using hInv p hq hf
  | cancelSaleS token_id h =>
    obtain ⟨t, _, _, _, _, hst⟩ := cancel_sale_ok h
    subst hst
    intro p hp hf
    rcases mem_insertA (show p ∈ insertA _ _ s.tokens by simpa using hp) with hq | hq
    · rw [hq] at hf; simp at hf
    · simpa using hInv p hq hf
  | buyS token_id h =>
    obtain ⟨t, r1, sa, stBase, _, _, _, _, _, _, _, _, hBase, hcase⟩ := buy_ok h
    subst hBase
    rcases hcase with ⟨_, hst⟩ | ⟨_, hst⟩ <;>
      (subst hst
       intro p hp hf
       rcases mem_insertA (show p ∈ insertA _ _ s.tokens by simpa using hp) with hq | hq
       · rw [hq] at hf; simp at hf
       · simpa using hInv p hq hf)
  | makeOfferS token_id dur h =>
    obtain ⟨t, _, _, _, _, _, hcase⟩ := make_offer_ok h
    rcases hcase with ⟨toff, _, ⟨old, _, hst⟩ | ⟨_, hst⟩⟩ | ⟨_, hst⟩ <;>
      (subst hst
       intro p hp hf
       simpa using hInv p (by simpa using hp) hf)
  | cancelOfferS token_id h =>
    obtain ⟨toff, off, _, _, _, hst⟩ := cancel_offer_ok h
    subst hst
    intro p hp hf
    simpa using hInv p (by simpa using hp) hf
  | acceptOfferS token_id buyer h =>
    obtain ⟨t, toff, off, r1, sa, stBase, _, _, _, _, _, _, _, _, _, _, hBase, hcase⟩ :=
      accept_offer_ok h
    subst hBase
    rcases hcase with ⟨_, hst⟩ | ⟨_, hst⟩ <;>
      (subst hst
       intro p hp hf
       rcases mem_insertA (show p ∈ insertA _ _ s.tokens by simpa using hp) with hq | hq
       · rw [hq] at hf; simp at hf
       · simpa using hInv p hq hf)
  | transferS token_id to_ h =>
    obtain ⟨t, _, _, _, _, _, _, hfs, hst⟩ := transfer_ok h
    subst hst
    intro p hp hf
    rcases mem_insertA (show p ∈ insertA _ _ s.tokens by simpa using hp) with hq | hq
    · rw [hq] at hf
      simp only at hf
      rw [hfs] at hf
      simp at hf
    · simpa using hInv p hq hf
  | burnS token_id h =>
    obtain ⟨t, _, _, _, _, hcase⟩ := burn_ok h
    rcases hcase with ⟨toff, st2, _, hst2, hst⟩ | ⟨_, hst⟩ <;> subst hst
    · subst hst2
      intro p hp hf
      have htok := foldl_addPending_tokens toff { s with tokens := eraseA token_id s.tokens }
      have hmn := foldl_addPending_min_sale_price toff
        { s with tokens := eraseA token_id s.tokens }
      have hp2 : p ∈ eraseA token_id s.tokens := by
        have hp3 := hp
        simp only at hp3
        rw [htok] at hp3
        simpa using hp3
      have hg := hInv p (mem_eraseA hp2) hf
      simp only
      rw [hmn]
      simpa using hg
    · intro p hp hf
      simpa using hInv p (mem_eraseA (by simpa using hp)) hf
  | withdrawS amt h =>
    obtain ⟨_, _, _, hst⟩ := withdraw_ok h
    subst hst
    intro p hp hf
    simpa using hInv p (by simpa using hp) hf
  | withdrawFeesS amt h =>
    obtain ⟨_, _, _, _, hst⟩ := withdraw_fees_ok h
    subst hst
    intro p hp hf
    simpa using hInv p (by simpa using hp) hf
  | setPauseS p h =>
    obtain ⟨_, _, hst⟩ := set_pause_ok h
    subst hst
    intro p hp hf
    simpa using hInv p (by simpa using hp) hf
  | proposeAdminS na h =>
    obtain ⟨_, _, _, hst⟩ := propose_admin_ok h
    subst hst
    intro p hp hf
    simpa using hInv p (by simpa using hp) hf
  | acceptAdminS h =>
    obtain ⟨_, _, hst⟩ := accept_admin_ok h
    subst hst
    intro p hp hf
    simpa using hInv p (by simpa using hp) hf
  | cancelAdminChangeS h =>
    obtain ⟨_, _, hst⟩ := cancel_admin_change_ok h
    subst hst
    intro p hp hf
    simpa using hInv p (by simpa using hp) hf
  | updatePlatformFeeS nf h =>
    obtain ⟨_, _, _, hst⟩ := update_platform_fee_ok h
    subst hst
    intro p hp hf
    simpa using hInv p (by simpa using hp) hf
  | updateMintPriceS np h =>
    obtain ⟨_, _, hst⟩ := update_mint_price_ok h
    subst hst
    intro p hp hf
    simpa using hInv p (by simpa using hp) hf
  | updateMinSalePriceS np h =>
    obtain ⟨_, _, hst⟩ := update_min_sale_price_ok h
    subst hst
    intro p hp hf
    have h2 : np ≤ s.min_sale_price := by simpa using hmin
    have h3 := hInv p (by simpa using hp) hf
    simp only
    omega

theorem listedInv_reachableNR {st : State} (h : ReachableNR st) : listedInv st := by
  obtain ⟨a, fp, mp, msp, mml, ms, hfp, hmml, hr⟩ := h
  induction hr with
  | refl => intro p hp _; simp [initState] at hp
  | tail hsteps hstep ih =>
    obtain ⟨⟨l, ctx, hs⟩, hmin⟩ := hstep
    exact listedInv_step hs hmin ih

/-! ### Invariant: the sentinel burn address never owns or authors a token -/

/-- No stored token is owned or authored by the sentinel, and no stored
offer was placed by the sentinel. -/
def sentinelFree (st : State) : Prop :=
  (∀ p ∈ st.tokens, p.2.owner ≠ burnAddress ∧ p.2.author ≠ burnAddress) ∧
  (∀ q ∈ st.offers, ∀ r ∈ q.2, r.1 ≠ burnAddress)

theorem sentinelFree_step {l : Op} {ctx : Ctx} {s s' : State} (hs : StepL l ctx s s')
    (hsender : ctx.sender ≠ burnAddress) (hInv : sentinelFree s) : sentinelFree s' := by
  cases hs with
  | mintS md rp h =>
    obtain ⟨_, _, _, _, _, _, hst⟩ := mint_ok h
    subst hst
    constructor
    · intro p hp
      rcases mem_insertA (show p ∈ insertA _ _ s.tokens by simpa using hp) with hq | hq
      · rw [hq]; exact ⟨hsender, hsender⟩
      · exact hInv.1 p hq
    · intro q hq r hr
      exact hInv.2 q (by simpa using hq) r hr
  | listForSaleS token_id price h =>
    obtain ⟨t, _, _, heq, _, _, _, hst⟩ := list_for_sale_ok h
    subst hst
    constructor
    · intro p hp
      rcases mem_insertA (show p ∈ insertA _ _ s.tokens by simpa using hp) with hq | hq
      · have hh := hInv.1 _ (lookupA_mem heq)
        rw [hq]
        exact ⟨hh.1, hh.2⟩
      · exact hInv.1 p hq
    · intro q hq r hr
      exact hInv.2 q (by simpa using hq) r hr
  | updatePriceS token_id np h =>
    obtain ⟨t, _, _, heq, _, _, _, hst⟩ := update_price_ok h
    subst hst
    constructor
    · intro p hp
      rcases mem_insertA (show p ∈ insertA _ _ s.tokens by simpa using hp) with hq | hq
      · have hh := hInv.1 _ (lookupA_mem heq)
        rw [hq]
        exact ⟨hh.1, hh.2⟩
      · exact hInv.1 p hq
    · intro q hq r hr
      exact hInv.2 q (by simpa using hq) r hr
  | cancelSaleS token_id h =>
    obtain ⟨t, _, heq, _, _, hst⟩ := cancel_sale_ok h
    subst hst
    constructor
    · intro p hp
      rcases mem_insertA (show p ∈ insertA _ _ s.tokens by simpa using hp) with hq | hq
      · have hh := hInv.1 _ (lookupA_mem heq)
        rw [hq]
        exact ⟨hh.1, hh.2⟩
      · exact hInv.1 p hq
    · intro q hq r hr
      exact hInv.2 q (by simpa using hq) r hr
  | buyS token_id h =>
    obtain ⟨t, r1, sa, stBase, _, heq, _, _, _, _, _, _, hBase, hcase⟩ := buy_ok h
    subst hBase
    rcases hcase with ⟨_, hst⟩ | ⟨_, hst⟩ <;>
      (subst hst
       constructor
       · intro p hp
         rcases mem_insertA (show p ∈ insertA _ _ s.tokens by simpa using hp) with hq | hq
         · rw [hq]; exact ⟨hsender, (hInv.1 _ (lookupA_mem heq)).2⟩
         · exact hInv.1 p hq
       · intro q hq r hr
         exact hInv.2 q (by simpa using hq) r hr)
  | makeOfferS token_id dur h =>
    obtain ⟨t, _, _, _, _, _, hcase⟩ := make_offer_ok h
    rcases hcase with ⟨toff, heq2, ⟨old, _, hst⟩ | ⟨_, hst⟩⟩ | ⟨heq2, hst⟩ <;>
      (subst hst
       constructor
       · intro p hp
         exact hInv.1 p (by simpa using hp)
       · intro q hq r hr
         rcases mem_insertA (show q ∈ insertA _ _ s.offers by simpa using hq) with hq2 | hq2
         · rw [hq2] at hr
           simp only at hr
           first
           | (rcases mem_insertA hr with hr2 | hr2
              · rw [hr2]; exact hsender
              · exact hInv.2 _ (lookupA_mem heq2) r hr2)
           | (rcases List.mem_singleton.mp hr with hr2
              rw [hr2]; exact hsender)
         · exact hInv.2 q hq2 r hr)
  | cancelOfferS token_id h =>
    obtain ⟨toff, off, _, heq2, _, hst⟩ := cancel_offer_ok h
    subst hst
    constructor
    · intro p hp
      exact hInv.1 p (by simpa using hp)
    · intro q hq r hr
      rcases mem_insertA (show q ∈ insertA _ _ s.offers by simpa using hq) with hq2 | hq2
      · rw [hq2] at hr
        exact hInv.2 _ (lookupA_mem heq2) r (mem_eraseA hr)
      · exact hInv.2 q hq2 r hr
  | acceptOfferS token_id buyer h =>
    obtain ⟨t, toff, off, r1, sa, stBase, _, _, heq, heq2, _, heq3, _, _, _, _, hBase,
      hcase⟩ := accept_offer_ok h
    subst hBase
    have hbuyer : buyer ≠ burnAddress :=
      hInv.2 _ (lookupA_mem heq2) _ (lookupA_mem heq3)
    rcases hcase with ⟨_, hst⟩ | ⟨_, hst⟩ <;>
      (subst hst
       constructor
       · intro p hp
         rcases mem_insertA (show p ∈ insertA _ _ s.tokens by simpa using hp) with hq | hq
         · rw [hq]; exact ⟨hbuyer, (hInv.1 _ (lookupA_mem heq)).2⟩
         · exact hInv.1 p hq
       · intro q hq r hr
         rcases mem_insertA (show q ∈ insertA _ _ s.offers by simpa using hq) with hq2 | hq2
         · rw [hq2] at hr
           exact hInv.2 _ (lookupA_mem heq2) r (mem_eraseA hr)
         · exact hInv.2 q hq2 r hr)
  | transferS token_id to_ h =>
    obtain ⟨t, _, _, heq, hto, _, _, _, hst⟩ := transfer_ok h
    subst hst
    constructor
    · intro p hp
      rcases mem_insertA (show p ∈ insertA _ _ s.tokens by simpa using hp) with hq | hq
      · rw [hq]; exact ⟨hto, (hInv.1 _ (lookupA_mem heq)).2⟩
      · exact hInv.1 p hq
    · intro q hq r hr
      exact hInv.2 q (by simpa using hq) r hr
  | burnS token_id h =>
    obtain ⟨t, _, _, _, _, hcase⟩ := burn_ok h
    rcases hcase with ⟨toff, st2, _, hst2, hst⟩ | ⟨_, hst⟩ <;> subst hst
    · subst hst2
      have htok := foldl_addPending_tokens toff { s with tokens := eraseA token_id s.tokens }
      have hoff := foldl_addPending_offers toff { s with tokens := eraseA token_id s.tokens }
      constructor
      · intro p hp
        have hp2 : p ∈ eraseA token_id s.tokens := by
          have hp3 := hp
          simp only at hp3
          rw [htok] at hp3
          simpa using hp3
        exact hInv.1 p (mem_eraseA hp2)
      · intro q hq r hr
        have hq2 : q ∈ eraseA token_id s.offers := by
          have hq3 := hq
          simp only at hq3
          rw [hoff] at hq3
          simpa using hq3
        exact hInv.2 q (mem_eraseA hq2) r hr
    · constructor
      · intro p hp
        exact hInv.1 p (mem_eraseA (by simpa using hp))
      · intro q hq r hr
        exact hInv.2 q (by simpa using hq) r hr
  | withdrawS amt h =>
    obtain ⟨_, _, _, hst⟩ := withdraw_ok h
    subst hst
    exact ⟨fun p hp => hInv.1 p (by simpa using hp),
      fun q hq r hr => hInv.2 q (by simpa using hq) r hr⟩
  | withdrawFeesS amt h =>
    obtain ⟨_, _, _, _, hst⟩ := withdraw_fees_ok h
    subst hst
    exact ⟨fun p hp => hInv.1 p (by simpa using hp),
      fun q hq r hr => hInv.2 q (by simpa using hq) r hr⟩
  | setPauseS p h =>
    obtain ⟨_, _, hst⟩ := set_pause_ok h
    subst hst
    exact ⟨fun p hp => hInv.1 p (by simpa using hp),
      fun q hq r hr => hInv.2 q (by simpa using hq) r hr⟩
  | proposeAdminS na h =>
    obtain ⟨_, _, _, hst⟩ := propose_admin_ok h
    subst hst
    exact ⟨fun p hp => hInv.1 p (by simpa using hp),
      fun q hq r hr => hInv.2 q (by simpa using hq) r hr⟩
  | acceptAdminS h =>
    obtain ⟨_, _, hst⟩ := accept_admin_ok h
    subst hst
    exact ⟨fun p hp => hInv.1 p (by simpa using hp),
      fun q hq r hr => hInv.2 q (by simpa using hq) r hr⟩
  | cancelAdminChangeS h =>
    obtain ⟨_, _, hst⟩ := cancel_admin_change_ok h
    subst hst
    exact ⟨fun p hp => hInv.1 p (by simpa using hp),
      fun q hq r hr => hInv.2 q (by simpa using hq) r hr⟩
  | updatePlatformFeeS nf h =>
    obtain ⟨_, _, _, hst⟩ := update_platform_fee_ok h
    subst hst
    exact ⟨fun p hp => hInv.1 p (by simpa using hp),
      fun q hq r hr => hInv.2 q (by simpa using hq) r hr⟩
  | updateMintPriceS np h =>
    obtain ⟨_, _, hst⟩ := update_mint_price_ok h
    subst hst
    exact ⟨fun p hp => hInv.1 p (by simpa using hp),
      fun q hq r hr => hInv.2 q (by simpa using hq) r hr⟩
  | updateMinSalePriceS np h =>
    obtain ⟨_, _, hst⟩ := update_min_sale_price_ok h
    subst hst
    exact ⟨fun p hp => hInv.1 p (by simpa using hp),
      fun q hq r hr => hInv.2 q (by simpa using hq) r hr⟩

theorem sentinelFree_reachableNB {st : State} (h : ReachableNB st) : sentinelFree st := by
  obtain ⟨a, fp, mp, msp, mml, ms, hfp, hmml, hr⟩ := h
  induction hr with
  | refl =>
    exact ⟨fun p hp => absurd hp (by simp [initState]),
      fun q hq => absurd hq (by simp [initState])⟩
  | tail hsteps hstep ih =>
    obtain ⟨l, ctx, hns, hs⟩ := hstep
    exact sentinelFree_step hs hns ih

/-! ### Arithmetic of the settlement split -/

theorem split_le {p rp fp : Nat} (hrp : rp ≤ 50) (hfp : fp ≤ 20) :
    splitTokens p rp 100 + splitTokens p fp 100 ≤ p := by
  have h1 : p * rp ≤ 50 * p := by
    calc p * rp ≤ p * 50 := Nat.mul_le_mul_left p hrp
    _ = 50 * p := Nat.mul_comm p 50
  have h2 : p * fp ≤ 20 * p := by
    calc p * fp ≤ p * 20 := Nat.mul_le_mul_left p hfp
    _ = 20 * p := Nat.mul_comm p 20
  unfold splitTokens
  omega

/-! ### Concrete scenario states used by counterexamples and witnesses -/

/-- A fresh marketplace: admin `adam`, 0% fee, free mint, floor 1 mutez. -/
def exInit : State := initState "adam" 0 0 1 10 0

/-- The token `alice` mints first on `exInit`. -/
def exTok0 : Token :=
  { metadata := "meta", author := "alice", owner := "alice", price := 0,
    for_sale := false, royalty_percent := 0, created_at := 0 }

/-- `exInit` after `alice` mints token 0. -/
def exS1 : State := { exInit with tokens := [(0, exTok0)], next_id := 1 }

/-- Token 0 once listed at price 1 (the floor). -/
def floorTok : Token :=
  { metadata := "meta", author := "alice", owner := "alice", price := 1,
    for_sale := true, royalty_percent := 0, created_at := 0 }

/-- `exS1` after `alice` lists token 0 at price 1. -/
def exS2 : State := { exS1 with tokens := [(0, floorTok)] }

/-- `exS2` after the admin raises the floor to 2: token 0 is still listed
below the new floor. -/
def exS3 : State := { exS2 with min_sale_price := 2 }

theorem exS1_step : Step exInit exS1 :=
  ⟨.mintOp, ⟨"alice", 0, 0⟩, .mintS "meta" 0 rfl⟩

theorem exS2_step : Step exS1 exS2 :=
  ⟨.listForSaleOp, ⟨"alice", 0, 0⟩, .listForSaleS 0 1 rfl⟩

theorem exS3_step : Step exS2 exS3 :=
  ⟨.updateMinSalePriceOp, ⟨"adam", 0, 0⟩, .updateMinSalePriceS 2 rfl⟩

theorem exS3_reachable : Reachable exS3 :=
  ⟨"adam", 0, 0, 1, 10, 0, by omega, by omega,
    .tail (.tail (.tail .refl exS1_step) exS2_step) exS3_step⟩

theorem exS1_reachable : Reachable exS1 :=
  ⟨"adam", 0, 0, 1, 10, 0, by omega, by omega, .tail .refl exS1_step⟩

theorem exS2_reachableNR : ReachableNR exS2 :=
  ⟨"adam", 0, 0, 1, 10, 0, by omega, by omega,
    .tail (.tail .refl ⟨exS1_step, by decide⟩) ⟨exS2_step, by decide⟩⟩

theorem exS1_reachableNB : ReachableNB exS1 :=
  ⟨"adam", 0, 0, 1, 10, 0, by omega, by omega,
    .tail .refl ⟨.mintOp, ⟨"alice", 0, 0⟩, by decide, .mintS "meta" 0 rfl⟩⟩

/-! ### C4: the settlement split -/

/-- C4: for every settlement price `p` with `royalty_percent ≤ 50` and
`platform_fee_percent ≤ 20`, the split computed by `buy` and
`accept_offer` satisfies `royalty = ⌊p*rp/100⌋`, `fee = ⌊p*fp/100⌋`,
`seller_amount = p - royalty - fee` (both mutez subtractions succeed, so
the amount is non-negative), and `royalty + fee + seller_amount ≤ p`;
in particular `p=100, rp=10, fp=5` gives `(10, 5, 85)` and
`p=50, rp=20, fp=5` gives `(10, 2, 38)`. -/
theorem settlement_split_exact (p rp fp : Nat) (hrp : rp ≤ 50) (hfp : fp ≤ 20) :
    splitTokens p rp 100 = p * rp / 100 ∧
    splitTokens p fp 100 = p * fp / 100 ∧
    splitTokens p rp 100 + splitTokens p fp 100 ≤ p ∧
    subMutez p (splitTokens p rp 100) = .ok (p - splitTokens p rp 100) ∧
    subMutez (p - splitTokens p rp 100) (splitTokens p fp 100) =
      .ok (p - splitTokens p rp 100 - splitTokens p fp 100) ∧
    splitTokens p rp 100 + splitTokens p fp 100 +
      (p - splitTokens p rp 100 - splitTokens p fp 100) ≤ p ∧
    splitTokens 100 10 100 = 10 ∧ splitTokens 100 5 100 = 5 ∧
    (100 - splitTokens 100 10 100 - splitTokens 100 5 100 : Nat) = 85 ∧
    splitTokens 50 20 100 = 10 ∧ splitTokens 50 5 100 = 2 ∧
    (50 - splitTokens 50 20 100 - splitTokens 50 5 100 : Nat) = 38 := by
  have hb := split_le (p := p) hrp hfp
  refine ⟨rfl, rfl, hb, ?_, ?_, by omega,
    by decide, by decide, by decide, by decide, by decide, by decide⟩
  · unfold subMutez
    rw [if_pos (by omega)]
  · unfold subMutez
    rw [if_pos (by omega)]

theorem settlement_split_witness :
    splitTokens 50 20 100 + splitTokens 50 5 100 +
      (50 - splitTokens 50 20 100 - splitTokens 50 5 100) ≤ 50 :=
  (settlement_split_exact 50 20 5 (by omega) (by omega)).2.2.2.2.2.1

/-! ### C10: stored pending balances are strictly positive -/

/-- C10: in every reachable state every entry of the pending-payments
ledger is strictly positive (the crediting helper skips zero amounts and
`withdraw` deletes entries), so `withdraw`'s "Zero amount" failure branch
is unreachable: whenever the caller has an entry, its amount is
positive, and `withdraw` never fails with that reason. -/
theorem pending_entries_positive {st : State} (h : Reachable st) :
    (∀ p ∈ st.pending_payments, 0 < p.2) ∧
    (∀ a v, lookupA a st.pending_payments = some v → 0 < v) ∧
    (∀ ctx : Ctx, withdraw st ctx ≠ .error "WITHDRAW: Zero amount") := by
  have hpos := pendingPos_reachable h
  refine ⟨hpos, fun a v hv => hpos _ (lookupA_mem hv), fun ctx hw => ?_⟩
  unfold withdraw at hw
  split at hw
  · injection hw with hw2
    exact absurd hw2 (by decide)
  · split at hw
    · injection hw with hw2
      exact absurd hw2 (by decide)
    · rename_i hopt amount heq
      split at hw
      · rename_i hz
        have := hpos _ (lookupA_mem heq)
        omega
      · exact Except.noConfusion hw

theorem pending_entries_positive_witness :
    withdraw exS1 { sender := "alice", amount := 0, now := 0 } ≠
      .error "WITHDRAW: Zero amount" :=
  (pending_entries_positive exS1_reachable).2.2 { sender := "alice", amount := 0, now := 0 }

/-! ### C1: the listing floor invariant -/

/-- C1 counterexample: starting from a fresh contract, mint a token, list
it at the floor (price 1), then let the admin raise `min_sale_price` to 2
via `update_min_sale_price`: the reachable state `exS3` stores a token
with `for_sale = true` and `price < min_sale_price`, so the claimed
reachable-state invariant is false. -/
theorem listed_floor_counterexample :
    Reachable exS3 ∧ lookupA 0 exS3.tokens = some floorTok ∧
    floorTok.for_sale = true ∧ floorTok.price < exS3.min_sale_price ∧
    ¬ listedInv exS3 :=
  ⟨exS3_reachable, by decide, by decide, by decide,
    fun hInv => absurd (hInv (0, floorTok) (by decide) (by decide)) (by decide)⟩

/-- C1 amended: in every state reachable by successful operations none of
which raises `min_sale_price` (this allows `update_min_sale_price` calls
that keep or lower the floor), every asset with `for_sale = true` has
`price ≥ min_sale_price`.  An `update_min_sale_price` that raises the
floor can break the invariant for already-listed assets, as the
counterexample shows — listings are not revalidated. -/
theorem listed_floor_invariant (st : State) (h : ReachableNR st) : listedInv st :=
  listedInv_reachableNR h

theorem listed_floor_witness : exS2.min_sale_price ≤ floorTok.price :=
  listed_floor_invariant exS2 exS2_reachableNR (0, floorTok) (by decide) (by decide)

/-! ### C2: the sentinel burn address -/

/-- The token minted when the sentinel itself is the caller. -/
def burnTok : Token :=
  { metadata := "meta", author := burnAddress, owner := burnAddress, price := 0,
    for_sale := false, royalty_percent := 0, created_at := 0 }

/-- `exInit` after the sentinel burn address calls `mint`. -/
def burnS1 : State := { exInit with tokens := [(0, burnTok)], next_id := 1 }

/-- C2 counterexample: `mint` never checks the caller against the
sentinel, so a `mint` whose `sp.sender` is the burn address reaches a
state whose token 0 has the sentinel as both owner and author. -/
theorem sentinel_mint_counterexample :
    Reachable burnS1 ∧ lookupA 0 burnS1.tokens = some burnTok ∧
    burnTok.owner = burnAddress ∧ burnTok.author = burnAddress ∧
    ¬ sentinelFree burnS1 :=
  ⟨⟨"adam", 0, 0, 1, 10, 0, by omega, by omega,
      .tail .refl ⟨.mintOp, ⟨burnAddress, 0, 0⟩, .mintS "meta" 0 rfl⟩⟩,
    by decide, by decide, by decide,
    fun hsf => (hsf.1 (0, burnTok) (by decide)).1 (by decide)⟩

/-- C2 amended: `transfer` to the sentinel always aborts (for every state,
context and token), and provided the sentinel never appears as the caller
of any operation, no reachable state stores a token owned or authored by
the sentinel (nor an offer placed by it).  Without that proviso the claim
fails: the sentinel calling `mint` mints a token to itself, as the
counterexample shows. -/
theorem sentinel_owner_invariant :
    (∀ (st : State) (ctx : Ctx) (token_id : Nat) (st' : State),
      transfer st ctx token_id burnAddress ≠ .ok st') ∧
    (∀ st : State, ReachableNB st → sentinelFree st) := by
  constructor
  · intro st ctx token_id st' h
    obtain ⟨t, _, _, _, hto, _, _, _, _⟩ := transfer_ok h
    exact hto rfl
  · exact fun st h => sentinelFree_reachableNB h

theorem sentinel_owner_witness :
    transfer exS1 { sender := "alice", amount := 0, now := 0 } 0 burnAddress ≠
      .ok exS1 ∧ sentinelFree exS1 :=
  ⟨sentinel_owner_invariant.1 exS1 { sender := "alice", amount := 0, now := 0 } 0 exS1,
    sentinel_owner_invariant.2 exS1 exS1_reachableNB⟩

/-! ### C8: the two-step admin handover -/

theorem foldl_addPending_pending_admin (l : List (Addr × Offer)) (s : State) :
    (l.foldl (fun s q => addPending s q.1 q.2.amount) s).pending_admin =
      s.pending_admin := by
  induction l generalizing s with
  | nil => rfl
  | cons q rest ih => simp [List.foldl, ih]

/-- `exInit` after the admin proposes `bob`. -/
def pA1 : State := { exInit with pending_admin := some "bob" }

/-- `pA1` after the admin proposes `carol` on top of the pending proposal. -/
def pA2 : State := { exInit with pending_admin := some "carol" }

/-- `pA1` after `bob` accepts. -/
def pA1acc : State := { exInit with admin := "bob", pending_admin := none }

theorem pA1_reachable : Reachable pA1 :=
  ⟨"adam", 0, 0, 1, 10, 0, by omega, by omega,
    .tail .refl ⟨.proposeAdminOp, { sender := "adam", amount := 0, now := 0 },
      .proposeAdminS "bob" rfl⟩⟩

/-- C8 counterexample: `propose_admin` does not require `pending_admin =
None`, so from the reachable Proposed state `pA1` (`pending_admin = some
"bob"`) a second `propose_admin` moves to `pending_admin = some "carol"`:
the state moves to Proposed from a non-Stable state, contradicting the
claimed "only from Stable" transition structure. -/
theorem propose_overwrite_counterexample :
    Reachable pA1 ∧ pA1.pending_admin = some "bob" ∧ pA1.pending_admin ≠ none ∧
    StepL .proposeAdminOp { sender := "adam", amount := 0, now := 0 } pA1 pA2 ∧
    pA2.pending_admin = some "carol" ∧ pA2.pending_admin ≠ pA1.pending_admin :=
  ⟨pA1_reachable, by decide, by decide, .proposeAdminS "carol" rfl, by decide, by decide⟩

/-- C8 amended: `pending_admin` is written only by `propose_admin`
(admin-only, target distinct from the current admin, sets `some x` —
possibly overwriting an earlier proposal, i.e. also from a Proposed
state), `accept_admin` (succeeds exactly when the caller equals the
proposed address; installs it as admin and clears the proposal) and
`cancel_admin_change` (admin-only, clears the proposal, admin unchanged);
every other operation leaves `pending_admin` unchanged.  `accept_admin`
by any caller other than the proposed address aborts. -/
theorem admin_handover_spec :
    (∀ (st : State) (ctx : Ctx) (x : Addr) (st' : State),
      propose_admin st ctx x = .ok st' ↔
        (ctx.amount = 0 ∧ ctx.sender = st.admin ∧ x ≠ st.admin ∧
         st' = { st with pending_admin := some x })) ∧
    (∀ (st : State) (ctx : Ctx) (st' : State),
      accept_admin st ctx = .ok st' ↔
        (ctx.amount = 0 ∧ st.pending_admin = some ctx.sender ∧
         st' = { st with admin := ctx.sender, pending_admin := none })) ∧
    (∀ (st : State) (ctx : Ctx) (st' : State),
      cancel_admin_change st ctx = .ok st' ↔
        (ctx.amount = 0 ∧ ctx.sender = st.admin ∧
         st' = { st with pending_admin := none })) ∧
    (∀ (l : Op) (ctx : Ctx) (st st' : State), StepL l ctx st st' →
      st'.pending_admin ≠ st.pending_admin →
      l = .proposeAdminOp ∨ l = .acceptAdminOp ∨ l = .cancelAdminChangeOp) := by
  refine ⟨?_, ?_, ?_, ?_⟩
  · intro st ctx x st'
    constructor
    · exact fun h => propose_admin_ok h
    · rintro ⟨h1, h2, h3, h4⟩
      subst h4
      simp [propose_admin, h1, h2, h3]
  · intro st ctx st'
    constructor
    · exact fun h => accept_admin_ok h
    · rintro ⟨h1, h2, h3⟩
      subst h3
      simp [accept_admin, h1, h2]
  · intro st ctx st'
    constructor
    · exact fun h => cancel_admin_change_ok h
    · rintro ⟨h1, h2, h3⟩
      subst h3
      simp [cancel_admin_change, h1, h2]
  · intro l ctx st st' hs hne
    cases hs with
    | proposeAdminS x h => exact Or.inl rfl
    | acceptAdminS h => exact Or.inr (Or.inl rfl)
    | cancelAdminChangeS h => exact Or.inr (Or.inr rfl)
    | mintS md rp h =>
      obtain ⟨_, _, _, _, _, _, hst⟩ := mint_ok h
      subst hst; exact False.elim (hne (by simp))
    | listForSaleS token_id price h =>
      obtain ⟨t, _, _, _, _, _, _, hst⟩ := list_for_sale_ok h
      subst hst; exact False.elim (hne (by simp))
    | updatePriceS token_id np h =>
      obtain ⟨t, _, _, _, _, _, _, hst⟩ := update_price_ok h
      subst hst; exact False.elim (hne (by simp))
    | cancelSaleS token_id h =>
      obtain ⟨t, _, _, _, _, hst⟩ := cancel_sale_ok h
      subst hst; exact False.elim (hne (by simp))
    | buyS token_id h =>
      obtain ⟨t, r1, sa, stBase, _, _, _, _, _, _, _, _, hBase, hcase⟩ := buy_ok h
      subst hBase
      rcases hcase with ⟨_, hst⟩ | ⟨_, hst⟩ <;> subst hst <;>
        exact False.elim (hne (by simp))
    | makeOfferS token_id dur h =>
      obtain ⟨t, _, _, _, _, _, hcase⟩ := make_offer_ok h
      rcases hcase with ⟨toff, _, ⟨old, _, hst⟩ | ⟨_, hst⟩⟩ | ⟨_, hst⟩ <;> subst hst <;>
        exact False.elim (hne (by simp))
    | cancelOfferS token_id h =>
      obtain ⟨toff, off, _, _, _, hst⟩ := cancel_offer_ok h
      subst hst; exact False.elim (hne (by simp))
    | acceptOfferS token_id buyer h =>
      obtain ⟨t, toff, off, r1, sa, stBase, _, _, _, _, _, _, _, _, _, _, hBase, hcase⟩ :=
        accept_offer_ok h
      subst hBase
      rcases hcase with ⟨_, hst⟩ | ⟨_, hst⟩ <;> subst hst <;>
        exact False.elim (hne (by simp))
    | transferS token_id to_ h =>
      obtain ⟨t, _, _, _, _, _, _, _, hst⟩ := transfer_ok h
      subst hst; exact False.elim (hne (by simp))
    | burnS token_id h =>
      obtain ⟨t, _, _, _, _, hcase⟩ := burn_ok h
      rcases hcase with ⟨toff, st2, _, hst2, hst⟩ | ⟨_, hst⟩ <;> subst hst
      · subst hst2
        have hfold := foldl_addPending_pending_admin toff
          { st with tokens := eraseA token_id st.tokens }
        exact False.elim (hne (by simp [hfold]))
      · exact False.elim (hne (by simp))
    | withdrawS amt h =>
      obtain ⟨_, _, _, hst⟩ := withdraw_ok h
      subst hst; exact False.elim (hne (by simp))
    | withdrawFeesS amt h =>
      obtain ⟨_, _, _, _, hst⟩ := withdraw_fees_ok h
      subst hst; exact False.elim (hne (by simp))
    | setPauseS p h =>
      obtain ⟨_, _, hst⟩ := set_pause_ok h
      subst hst; exact False.elim (hne (by simp))
    | updatePlatformFeeS nf h =>
      obtain ⟨_, _, _, hst⟩ := update_platform_fee_ok h
      subst hst; exact False.elim (hne (by simp))
    | updateMintPriceS np h =>
      obtain ⟨_, _, hst⟩ := update_mint_price_ok h
      subst hst; exact False.elim (hne (by simp))
    | updateMinSalePriceS np h =>
      obtain ⟨_, _, hst⟩ := update_min_sale_price_ok h
      subst hst; exact False.elim (hne (by simp))

theorem admin_handover_witness :
    accept_admin pA1 { sender := "bob", amount := 0, now := 0 } = .ok pA1acc ∧
    (Op.proposeAdminOp = Op.proposeAdminOp ∨ Op.proposeAdminOp = Op.acceptAdminOp ∨
      Op.proposeAdminOp = Op.cancelAdminChangeOp) :=
  ⟨(admin_handover_spec.2.1 pA1 { sender := "bob", amount := 0, now := 0 } pA1acc).mpr
      ⟨rfl, by decide, by decide⟩,
    admin_handover_spec.2.2.2 .proposeAdminOp { sender := "adam", amount := 0, now := 0 }
      exInit pA1 (.proposeAdminS "bob" rfl) (by decide)⟩

/-! ### C3: withdrawal -/

/-- The offer `bob` places on token 0 in the withdraw scenario. -/
def wOffer : Offer := { amount := 5, expires_at := 10 }

/-- `exS1` after `bob` offers 5 mutez on token 0. -/
def wdS2 : State := { exS1 with offers := [(0, [("bob", wOffer)])] }

/-- `wdS2` after `bob` cancels the offer: 5 mutez pending for `bob`. -/
def wdS3 : State :=
  { exS1 with offers := [(0, [])], pending_payments := [("bob", 5)] }

/-- `wdS3` after `bob` withdraws: the ledger entry is gone. -/
def wdS4 : State := { exS1 with offers := [(0, [])] }

theorem wdS3_reachable : Reachable wdS3 :=
  ⟨"adam", 0, 0, 1, 10, 0, by omega, by omega,
    .tail (.tail (.tail .refl exS1_step)
        ⟨.makeOfferOp, { sender := "bob", amount := 5, now := 0 }, .makeOfferS 0 10 rfl⟩)
      ⟨.cancelOfferOp, { sender := "bob", amount := 0, now := 0 }, .cancelOfferS 0 rfl⟩⟩

/-- C3 counterexample: `withdraw` also asserts that no tez is attached, a
failure condition the claimed "aborts if and only if no entry or zero
amount" biconditional omits: in the reachable state `wdS3` the caller
`bob` has the nonzero pending entry 5, yet `withdraw` with 1 mutez
attached aborts (with "WITHDRAW: No tez expected"). -/
theorem withdraw_abort_counterexample :
    Reachable wdS3 ∧ lookupA "bob" wdS3.pending_payments = some 5 ∧ (5 : Nat) ≠ 0 ∧
    withdraw wdS3 { sender := "bob", amount := 1, now := 0 } =
      .error "WITHDRAW: No tez expected" :=
  ⟨wdS3_reachable, by decide, by decide, rfl⟩

/-- C3 amended: for calls with no attached payment, `withdraw` aborts if
and only if the caller has no pending-balance entry or its amount is
zero; on success the returned state — the state in effect when the
external transfer of the withdrawn amount is issued — no longer contains
the caller's ledger entry (deletion strictly precedes the send), so a
second `withdraw` immediately afterwards aborts with "Nothing pending"
and transfers nothing (assuming the ledger's keys are distinct, which
every contract-built ledger satisfies). -/
theorem withdraw_spec (st : State) (ctx : Ctx) (hamt : ctx.amount = 0)
    (hnd : (st.pending_payments.map Prod.fst).Nodup) :
    ((∃ r, withdraw st ctx = .ok r) ↔
      ∃ v, lookupA ctx.sender st.pending_payments = some v ∧ v ≠ 0) ∧
    (∀ st' amt, withdraw st ctx = .ok (st', amt) →
      lookupA ctx.sender st.pending_payments = some amt ∧
      lookupA ctx.sender st'.pending_payments = none ∧
      withdraw st' ctx = .error "WITHDRAW: Nothing pending") := by
  constructor
  · constructor
    · rintro ⟨⟨st', amt⟩, hok⟩
      obtain ⟨_, hlook, hpos, _⟩ := withdraw_ok hok
      exact ⟨amt, hlook, by omega⟩
    · rintro ⟨v, hv, hvne⟩
      refine ⟨({ st with pending_payments := eraseA ctx.sender st.pending_payments }, v), ?_⟩
      simp [withdraw, hamt, hv, hvne]
  · intro st' amt hok
    obtain ⟨_, hlook, hpos, hst⟩ := withdraw_ok hok
    subst hst
    have herase : lookupA ctx.sender (eraseA ctx.sender st.pending_payments) = none :=
      lookupA_eraseA_self _ _ hnd
    refine ⟨hlook, by simpa using herase, ?_⟩
    simp [withdraw, hamt, herase]

theorem withdraw_spec_witness :
    lookupA "bob" wdS4.pending_payments = none ∧
    withdraw wdS4 { sender := "bob", amount := 0, now := 0 } =
      .error "WITHDRAW: Nothing pending" := by
  have h := (withdraw_spec wdS3 { sender := "bob", amount := 0, now := 0 } rfl
    (by decide)).2 wdS4 5 rfl
  exact ⟨h.2.1, h.2.2⟩

/-! ### C5: direct purchase -/

/-- C5: `buy(id)` aborts exactly when the contract is paused, the id is
unknown, the asset is not listed, the caller is the current owner, or the
attached payment differs from the listed price; on success the owner
becomes the caller, `for_sale` becomes false, `price` becomes 0, the fee
is added to the fee accumulator, and royalty/seller amounts are credited
to the author's and seller's pending balances — as one combined credit of
`seller_amount + royalty` to the seller when author = seller.  The two
percentage bounds assumed here are the data-model bounds the contract
enforces at every mutation point. -/
theorem buy_spec (st : State) (ctx : Ctx) (token_id : Nat)
    (hrp : ∀ p ∈ st.tokens, p.2.royalty_percent ≤ 50)
    (hfp : st.platform_fee_percent ≤ 20) :
    ((∃ st', buy st ctx token_id = .ok st') ↔
      (st.paused = false ∧ ∃ t, lookupA token_id st.tokens = some t ∧
        t.for_sale = true ∧ ctx.sender ≠ t.owner ∧ ctx.amount = t.price)) ∧
    (∀ st' t, buy st ctx token_id = .ok st' → lookupA token_id st.tokens = some t →
      lookupA token_id st'.tokens =
        some { t with owner := ctx.sender, for_sale := false, price := 0 } ∧
      st'.collected_fees =
        st.collected_fees + splitTokens t.price st.platform_fee_percent 100 ∧
      (t.author = t.owner →
        pendingOf st' t.owner = pendingOf st t.owner +
          ((t.price - splitTokens t.price t.royalty_percent 100
            - splitTokens t.price st.platform_fee_percent 100) +
            splitTokens t.price t.royalty_percent 100)) ∧
      (t.author ≠ t.owner →
        pendingOf st' t.author =
          pendingOf st t.author + splitTokens t.price t.royalty_percent 100 ∧
        pendingOf st' t.owner = pendingOf st t.owner +
          (t.price - splitTokens t.price t.royalty_percent 100
            - splitTokens t.price st.platform_fee_percent 100))) := by
  constructor
  · constructor
    · rintro ⟨st', hok⟩
      obtain ⟨t, r1, sa, stBase, hp, heq, hf, ho, ha, _⟩ := buy_ok hok
      exact ⟨hp, t, heq, hf, ho, ha⟩
    · rintro ⟨hp, t, hlook, hf, ho, ha⟩
      have hr50 : t.royalty_percent ≤ 50 := hrp _ (lookupA_mem hlook)
      have hsum := split_le (p := t.price) hr50 hfp
      have h1 : subMutez t.price (splitTokens t.price t.royalty_percent 100) =
          .ok (t.price - splitTokens t.price t.royalty_percent 100) := by
        unfold subMutez; rw [if_pos (by omega)]
      have h2 : subMutez (t.price - splitTokens t.price t.royalty_percent 100)
          (splitTokens t.price st.platform_fee_percent 100) =
          .ok (t.price - splitTokens t.price t.royalty_percent 100
            - splitTokens t.price st.platform_fee_percent 100) := by
        unfold subMutez; rw [if_pos (by omega)]
      by_cases hao : t.author = t.owner <;>
        simp [buy, hp, hlook, hf, ho, ha, h1, h2, hao]
  · intro st' t hok hlook2
    obtain ⟨tok, r1, sa, stBase, hp, heq, hf, ho, ha, hs1, hs2, hsa, hBase, hcase⟩ :=
      buy_ok hok
    rw [hlook2] at heq
    injection heq with heq2
    subst heq2
    subst hBase
    subst hsa
    obtain ⟨hr1le, hr1⟩ := subMutez_ok hs1
    obtain ⟨hr2le, hr2⟩ := subMutez_ok hs2
    subst hr1
    rcases hcase with ⟨hne, hst⟩ | ⟨hao, hst⟩ <;> subst hst
    · refine ⟨?_, ?_, fun hao => absurd hao hne, fun _ => ⟨?_, ?_⟩⟩
      · simp [lookupA_insertA_self]
      · simp
      · rw [pendingOf_addPending, if_neg hne, pendingOf_addPending, if_pos rfl]
        simp [pendingOf]
      · rw [pendingOf_addPending, if_pos rfl, pendingOf_addPending,
          if_neg (fun he => hne he.symm)]
        simp [pendingOf]
    · refine ⟨?_, ?_, fun _ => ?_, fun hne => absurd hao hne⟩
      · simp [lookupA_insertA_self]
      · simp
      · rw [pendingOf_addPending, if_pos rfl]
        simp [pendingOf]

/-- Fresh marketplace for the purchase scenario: 5% fee, mint price 1. -/
def buyInit : State := initState "adam" 5 1 1 256 0

/-- Token 0 as minted by `alice` with 10% royalty. -/
def buyTok : Token :=
  { metadata := "m1", author := "alice", owner := "alice", price := 0,
    for_sale := false, royalty_percent := 10, created_at := 0 }

/-- `buyInit` after `alice` mints token 0 (mint price 1 goes to fees). -/
def buyS1 : State := { buyInit with tokens := [(0, buyTok)], next_id := 1, collected_fees := 1 }

/-- Token 0 listed at 100. -/
def buyTokL : Token :=
  { metadata := "m1", author := "alice", owner := "alice", price := 100,
    for_sale := true, royalty_percent := 10, created_at := 0 }

/-- `buyS1` after `alice` lists token 0 at 100. -/
def buyS2 : State := { buyS1 with tokens := [(0, buyTokL)] }

/-- Token 0 after `bob` buys it. -/
def buyTokSold : Token :=
  { metadata := "m1", author := "alice", owner := "bob", price := 0,
    for_sale := false, royalty_percent := 10, created_at := 0 }

/-- `buyS2` after `bob` buys token 0 for 100: fee 5 accumulates and
`alice` (author = seller) is credited 85 + 10 = 95 in one entry. -/
def buyS3 : State :=
  { buyS2 with
    tokens := [(0, buyTokSold)]
    collected_fees := 6
    pending_payments := [("alice", 95)] }

theorem buy_spec_witness :
    lookupA 0 buyS3.tokens = some buyTokSold ∧
    pendingOf buyS3 "alice" =
      pendingOf buyS2 "alice" +
        ((100 - splitTokens 100 10 100 - splitTokens 100 5 100) +
          splitTokens 100 10 100) := by
  have h := (buy_spec buyS2 { sender := "bob", amount := 100, now := 0 } 0
    (by decide) (by decide)).2 buyS3 buyTokL rfl rfl
  exact ⟨h.1, h.2.2.1 rfl⟩

/-! ### C6: burn -/

/-- C6 counterexample: in the reachable state `exS1`, token 0 exists, is
not listed and is owned by the caller, yet `burn` with 1 mutez attached
aborts — an abort condition ("BURN: No tez expected") missing from the
claim's "aborting only when listed, unknown, or caller is not the owner". -/
theorem burn_amount_counterexample :
    Reachable exS1 ∧ lookupA 0 exS1.tokens = some exTok0 ∧
    exTok0.owner = "alice" ∧ exTok0.for_sale = false ∧
    burn exS1 { sender := "alice", amount := 1, now := 0 } 0 =
      .error "BURN: No tez expected" :=
  ⟨exS1_reachable, by decide, by decide, by decide, rfl⟩

/-- C6 amended: for calls with no attached payment, `burn(id)` succeeds
exactly when the asset exists, the caller owns it and it is not listed —
in particular the pause flag is irrelevant, so burn stays available while
paused; on success the asset record is deleted, every live offer on the
asset credits exactly its own amount to the respective bidder's pending
balance, and the asset's offer set is cleared.  (The map-key
distinctness hypotheses hold for every contract-built state.) -/
theorem burn_spec (st : State) (ctx : Ctx) (token_id : Nat)
    (hamt : ctx.amount = 0)
    (hndT : (st.tokens.map Prod.fst).Nodup)
    (hndO : (st.offers.map Prod.fst).Nodup)
    (hndI : ∀ offs, lookupA token_id st.offers = some offs →
      (offs.map Prod.fst).Nodup) :
    ((∃ st', burn st ctx token_id = .ok st') ↔
      ∃ t, lookupA token_id st.tokens = some t ∧ t.owner = ctx.sender ∧
        t.for_sale = false) ∧
    (∀ st', burn st ctx token_id = .ok st' →
      lookupA token_id st'.tokens = none ∧
      lookupA token_id st'.offers = none ∧
      ∀ offs, lookupA token_id st.offers = some offs →
        ∀ b o, (b, o) ∈ offs → pendingOf st' b = pendingOf st b + o.amount) := by
  constructor
  · constructor
    · rintro ⟨st', hok⟩
      obtain ⟨t, _, heq, howner, hfs, _⟩ := burn_ok hok
      exact ⟨t, heq, howner, hfs⟩
    · rintro ⟨t, hlook, howner, hfs⟩
      cases hoff : lookupA token_id st.offers with
      | none => simp [burn, hamt, hlook, howner, hfs, hoff]
      | some toff => simp [burn, hamt, hlook, howner, hfs, hoff]
  · intro st' hok
    obtain ⟨t, _, heq, howner, hfs, hcase⟩ := burn_ok hok
    rcases hcase with ⟨toff, st2, hoff, hst2, hst⟩ | ⟨hoff, hst⟩ <;> subst hst
    · subst hst2
      have hbaseT := foldl_addPending_tokens toff
        { st with tokens := eraseA token_id st.tokens }
      have hbaseO := foldl_addPending_offers toff
        { st with tokens := eraseA token_id st.tokens }
      refine ⟨?_, ?_, ?_⟩
      · simp [hbaseT, lookupA_eraseA_self token_id st.tokens hndT]
      · simp [hbaseO, lookupA_eraseA_self token_id st.offers hndO]
      · intro offs hoffs b o hmem
        rw [hoff] at hoffs
        injection hoffs with he
        subst he
        have hfold := pendingOf_foldl_of_mem _
          { st with tokens := eraseA token_id st.tokens } hmem (hndI _ hoff)
        simpa [pendingOf] using hfold
    · refine ⟨?_, ?_, ?_⟩
      · simp [lookupA_eraseA_self token_id st.tokens hndT]
      · simpa using hoff
      · intro offs hoffs
        rw [hoff] at hoffs
        exact absurd hoffs (by simp)

/-- First offer on token 0 in the burn scenario: `bob`, 50 mutez. -/
def b2Off1 : Offer := { amount := 50, expires_at := 100 }

/-- Second offer on token 0 in the burn scenario: `carol`, 60 mutez. -/
def b2Off2 : Offer := { amount := 60, expires_at := 100 }

/-- `exS1` with two live offers on token 0. -/
def b2St : State := { exS1 with offers := [(0, [("bob", b2Off1), ("carol", b2Off2)])] }

/-- `b2St` after `alice` burns token 0: both offers refunded to pending. -/
def b2Res : State :=
  { exS1 with
    tokens := []
    offers := []
    pending_payments := [("bob", 50), ("carol", 60)] }

theorem burn_spec_witness :
    lookupA 0 b2Res.tokens = none ∧ lookupA 0 b2Res.offers = none ∧
    pendingOf b2Res "bob" = pendingOf b2St "bob" + 50 ∧
    pendingOf b2Res "carol" = pendingOf b2St "carol" + 60 := by
  have hndI : ∀ offs, lookupA 0 b2St.offers = some offs →
      (offs.map Prod.fst).Nodup := by
    intro offs hoffs
    have h2 : some [("bob", b2Off1), ("carol", b2Off2)] = some offs := hoffs
    injection h2 with h3
    subst h3
    decide
  have h := (burn_spec b2St { sender := "alice", amount := 0, now := 0 } 0 rfl
    (by decide) (by decide) hndI).2 b2Res rfl
  exact ⟨h.1, h.2.1,
    h.2.2 [("bob", b2Off1), ("carol", b2Off2)] rfl "bob" b2Off1 (by decide),
    h.2.2 [("bob", b2Off1), ("carol", b2Off2)] rfl "carol" b2Off2 (by decide)⟩

/-! ### C7: repeated offers refund the prior offer -/

/-- C7: when the caller already holds an offer on the asset, a successful
`make_offer` credits the prior offer's full amount to the caller's
pending balance and records the new offer with amount equal to the
attached payment and expiry `now + duration`; every other bidder's offer
on the asset is unchanged. -/
theorem make_offer_refund (st : State) (ctx : Ctx) (token_id : Nat)
    (duration_seconds : Int) (st' : State) (toff : List (Addr × Offer))
    (old_offer : Offer)
    (hoff : lookupA token_id st.offers = some toff)
    (hold : lookupA ctx.sender toff = some old_offer)
    (hok : make_offer st ctx token_id duration_seconds = .ok st') :
    pendingOf st' ctx.sender = pendingOf st ctx.sender + old_offer.amount ∧
    ∃ toff', lookupA token_id st'.offers = some toff' ∧
      lookupA ctx.sender toff' =
        some { amount := ctx.amount, expires_at := ctx.now + duration_seconds } ∧
      ∀ b, b ≠ ctx.sender → lookupA b toff' = lookupA b toff := by
  obtain ⟨t, _, _, _, _, _, hcase⟩ := make_offer_ok hok
  rcases hcase with ⟨toff2, hoff2, ⟨old2, hold2, hst⟩ | ⟨hnone, hst⟩⟩ | ⟨hnone, hst⟩
  · rw [hoff] at hoff2
    injection hoff2 with he
    subst he
    rw [hold] at hold2
    injection hold2 with he2
    subst he2
    subst hst
    refine ⟨?_,
      insertA ctx.sender
        { amount := ctx.amount, expires_at := ctx.now + duration_seconds } toff,
      ?_, lookupA_insertA_self _ _ _, ?_⟩
    · show pendingOf (addPending st ctx.sender old_offer.amount) ctx.sender = _
      rw [pendingOf_addPending, if_pos rfl]
    · simp [lookupA_insertA_self]
    · intro b hb
      exact lookupA_insertA_ne _ _ (fun he => hb he.symm)
  · rw [hoff] at hoff2
    injection hoff2 with he
    subst he
    rw [hold] at hnone
    exact Option.noConfusion hnone
  · rw [hoff] at hnone
    exact Option.noConfusion hnone

/-- Existing offers for the repeat-offer scenario. -/
def moOff1 : Offer := { amount := 50, expires_at := 86400 }

/-- `carol`'s competing offer in the repeat-offer scenario. -/
def moOff2 : Offer := { amount := 60, expires_at := 86400 }

/-- `exS1` with offers by `bob` (50) and `carol` (60) on token 0. -/
def mo1 : State := { exS1 with offers := [(0, [("bob", moOff1), ("carol", moOff2)])] }

/-- `mo1` after `bob` re-offers 70: the old 50 goes to pending. -/
def mo2 : State :=
  { exS1 with
    offers := [(0, [("bob", { amount := 70, expires_at := 100 }), ("carol", moOff2)])]
    pending_payments := [("bob", 50)] }

theorem make_offer_refund_witness :
    pendingOf mo2 "bob" = pendingOf mo1 "bob" + 50 :=
  (make_offer_refund mo1 { sender := "bob", amount := 70, now := 0 } 0 100 mo2
    [("bob", moOff1), ("carol", moOff2)] moOff1 rfl rfl rfl).1

/-! ### C9: offer acceptance ignores the sale-price floor -/

/-- C9: `accept_offer` never compares the accepted offer's amount with the
current `min_sale_price`: whenever its stated preconditions hold (not
paused, no payment, asset and offer exist, caller owns the asset, offer
unexpired — with the data-model percentage bounds), the call succeeds
with the usual settlement even though the offer's amount is strictly
below the current floor. -/
theorem accept_offer_ignores_floor (st : State) (ctx : Ctx) (token_id : Nat)
    (buyer : Addr) (t : Token) (toff : List (Addr × Offer)) (off : Offer)
    (hp : st.paused = false) (hamt : ctx.amount = 0)
    (htok : lookupA token_id st.tokens = some t)
    (hoff : lookupA token_id st.offers = some toff)
    (howner : t.owner = ctx.sender)
    (hbuy : lookupA buyer toff = some off)
    (hexp : ctx.now < off.expires_at)
    (hrp : t.royalty_percent ≤ 50) (hfp : st.platform_fee_percent ≤ 20)
    (hbelow : off.amount < st.min_sale_price) :
    ∃ st', accept_offer st ctx token_id buyer = .ok st' ∧
      lookupA token_id st'.tokens =
        some { t with owner := buyer, for_sale := false, price := 0 } ∧
      st'.collected_fees =
        st.collected_fees + splitTokens off.amount st.platform_fee_percent 100 := by
  have hsum := split_le (p := off.amount) hrp hfp
  have h1 : subMutez off.amount (splitTokens off.amount t.royalty_percent 100) =
      .ok (off.amount - splitTokens off.amount t.royalty_percent 100) := by
    unfold subMutez; rw [if_pos (by omega)]
  have h2 : subMutez (off.amount - splitTokens off.amount t.royalty_percent 100)
      (splitTokens off.amount st.platform_fee_percent 100) =
      .ok (off.amount - splitTokens off.amount t.royalty_percent 100
        - splitTokens off.amount st.platform_fee_percent 100) := by
    unfold subMutez; rw [if_pos (by omega)]
  have hexp2 : ¬ off.expires_at ≤ ctx.now := by omega
  have hex : ∃ st', accept_offer st ctx token_id buyer = .ok st' := by
    by_cases hao : t.author = ctx.sender <;>
      simp [accept_offer, hp, hamt, htok, hoff, howner, hbuy, hexp2, h1, h2, hao]
  obtain ⟨st', hok⟩ := hex
  refine ⟨st', hok, ?_⟩
  obtain ⟨t2, toff2, off2, r1, sa, stBase, _, _, htok2, hoff2, _, hbuy2, _, _, _, _,
    hBase, hcase⟩ := accept_offer_ok hok
  rw [htok] at htok2
  injection htok2 with he
  subst he
  rw [hoff] at hoff2
  injection hoff2 with he2
  subst he2
  rw [hbuy] at hbuy2
  injection hbuy2 with he3
  subst he3
  subst hBase
  rcases hcase with ⟨_, hst⟩ | ⟨_, hst⟩ <;> subst hst <;>
    exact ⟨by simp [lookupA_insertA_self], by simp⟩

/-- Floor-100 marketplace with a live 50-mutez offer on token 0. -/
def aoInit : State := initState "adam" 5 0 100 10 0

/-- Token 0 in the floor scenario. -/
def aoTok : Token :=
  { metadata := "m", author := "alice", owner := "alice", price := 0,
    for_sale := false, royalty_percent := 10, created_at := 0 }

/-- `bob`'s 50-mutez offer, below the raised floor of 100. -/
def aoOff : Offer := { amount := 50, expires_at := 100 }

/-- The floor scenario state: floor 100, offer of 50 still live. -/
def aoSt : State :=
  { aoInit with
    tokens := [(0, aoTok)]
    next_id := 1
    offers := [(0, [("bob", aoOff)])] }

theorem accept_offer_ignores_floor_witness :
    aoOff.amount < aoSt.min_sale_price ∧
    (accept_offer aoSt { sender := "alice", amount := 0, now := 5 } 0 "bob").isOk =
      true := by
  obtain ⟨st', hok, _, _⟩ := accept_offer_ignores_floor aoSt
    { sender := "alice", amount := 0, now := 5 } 0 "bob" aoTok [("bob", aoOff)] aoOff
    rfl rfl rfl rfl rfl rfl (by decide) (by decide) (by decide) (by decide)
  exact ⟨by decide, by simp [hok, Except.isOk, Except.toBool]⟩
